import Mathlib

/-!
Verification of the texture-loader compatibility layer
(`compat/texture_loader_compat.cpp` / `.h`) against its specification.

The development shallowly embeds the relevant C++ functions as executable
Lean definitions over byte lists (files) and plain structures (images,
resource metadata).  External collaborators that the source file merely
calls (the binary resource-info probe, the embedded PNG/WebP codecs, the
v4 `CompressedTexture2D::load_image_from_file` body, and the `Image`
size-formula helpers) are modelled from the specification and marked as
such in their doc comments.
-/

/-- Godot error codes used by the embedded functions (a closed selection of
`core/error/error_list.h`). -/
inductive GodotError where
  | ok
  | failed
  | errUnavailable
  | errFileUnrecognized
  | errFileCorrupt
  | errFileEof
  | errCantOpen
  | errPrinterOnFire
  | errInvalidParameter
deriving DecidableEq, Repr

/-- An error value: a Godot error code together with the failure message the
source attaches via its error macros (empty when the macro carries none). -/
abbrev ErrMsg := GodotError × String

/-- A file is a list of byte values; reading past the end yields 0, matching
`FileAccess` semantics for reads past EOF. -/
def read8 (bs : List Nat) (pos : Nat) : Nat := bs.getD pos 0

/-- Little-endian 16-bit read (`FileAccess::get_16`). -/
def read16 (bs : List Nat) (pos : Nat) : Nat := read8 bs pos + 256 * read8 bs (pos + 1)

/-- Little-endian 32-bit read (`FileAccess::get_32`). -/
def read32 (bs : List Nat) (pos : Nat) : Nat := read16 bs pos + 65536 * read16 bs (pos + 2)

/-- The `TextureLoaderCompat::TextureVersionType` enumeration
(texture_loader_compat.h, lines 15-32). -/
inductive TextureVersionType where
  | FORMAT_NOT_TEXTURE
  | FORMAT_V2_TEXTURE
  | FORMAT_V2_IMAGE_TEXTURE
  | FORMAT_V2_ATLAS_TEXTURE
  | FORMAT_V2_LARGE_TEXTURE
  | FORMAT_V2_CUBEMAP
  | FORMAT_V3_ATLAS_TEXTURE
  | FORMAT_V3_IMAGE_TEXTURE
  | FORMAT_V3_STREAM_TEXTURE2D
  | FORMAT_V3_STREAM_TEXTURE3D
  | FORMAT_V3_STREAM_TEXTUREARRAY
  | FORMAT_V4_ATLAS_TEXTURE
  | FORMAT_V4_IMAGE_TEXTURE
  | FORMAT_V4_COMPRESSED_TEXTURE2D
  | FORMAT_V4_COMPRESSED_TEXTURE3D
  | FORMAT_V4_COMPRESSED_TEXTURELAYERED
deriving DecidableEq, Repr

open TextureVersionType

/-- Modelled from the spec: the external resource-graph probe
(`ResourceFormatLoaderCompatBinary::get_resource_info`) delegated to for
`RSRC`/`RSCC` containers.  It yields an error code plus the probed logical
type name and major version. -/
structure ProbeResult where
  err : GodotError
  type : String
  ver_major : Int
deriving DecidableEq, Repr

/-- `TextureLoaderCompat::recognize` (texture_loader_compat.cpp, lines
93-160), embedded over the file's bytes, the path's extension (the external
`String::get_extension`, passed in directly) and the probe result.  Returns
the classified variant, the value left in `*r_err`, and the number of bytes
the function consumed from its own file handle (it performs a single
`get_buffer(header, 4)`). -/
def recognize (bs : List Nat) (ext : String) (probe : ProbeResult) :
    TextureVersionType × GodotError × Nat :=
  let b0 := read8 bs 0
  let b1 := read8 bs 1
  let b2 := read8 bs 2
  let b3 := read8 bs 3
  if b0 = 71 ∧ b1 = 68 ∧ b2 = 83 ∧ b3 = 84 then -- GDST
    (FORMAT_V3_STREAM_TEXTURE2D, .ok, 4)
  else if b0 = 71 ∧ b1 = 68 ∧ b2 = 51 ∧ b3 = 84 then -- GD3T
    (FORMAT_V3_STREAM_TEXTURE3D, .ok, 4)
  else if b0 = 71 ∧ b1 = 68 ∧ b2 = 65 ∧ b3 = 84 then -- GDAT
    (FORMAT_V3_STREAM_TEXTUREARRAY, .ok, 4)
  else if b0 = 71 ∧ b1 = 83 ∧ b2 = 84 ∧ b3 = 76 then -- GSTL
    if ext == "ctexarray" || ext == "ccube" || ext == "ccubearray" then
      (FORMAT_V4_COMPRESSED_TEXTURELAYERED, .ok, 4)
    else
      (FORMAT_V4_COMPRESSED_TEXTURE3D, .ok, 4)
  else if b0 = 71 ∧ b1 = 83 ∧ b2 = 84 ∧ b3 = 50 then -- GST2
    (FORMAT_V4_COMPRESSED_TEXTURE2D, .ok, 4)
  else if (b0 = 82 ∧ b1 = 83 ∧ b2 = 82 ∧ b3 = 67) ∨
      (b0 = 82 ∧ b1 = 83 ∧ b2 = 67 ∧ b3 = 67) then -- RSRC or RSCC
    -- delegate to the external probe; ERR_PRINTER_ON_FIRE (no import
    -- metadata) is rewritten to OK, any other failure aborts
    if probe.err = .errPrinterOnFire ∨ probe.err = .ok then
      if probe.type = "Texture" then
        (FORMAT_V2_TEXTURE, .ok, 4)
      else if probe.type = "ImageTexture" then
        if probe.ver_major ≤ 2 then (FORMAT_V2_IMAGE_TEXTURE, .ok, 4)
        else if probe.ver_major = 3 then (FORMAT_V3_IMAGE_TEXTURE, .ok, 4)
        else (FORMAT_V4_IMAGE_TEXTURE, .ok, 4)
      else if probe.type = "AtlasTexture" then
        if probe.ver_major = 1 ∨ probe.ver_major = 2 then (FORMAT_V2_ATLAS_TEXTURE, .ok, 4)
        else if probe.ver_major = 3 then (FORMAT_V3_ATLAS_TEXTURE, .ok, 4)
        else (FORMAT_V4_ATLAS_TEXTURE, .ok, 4)
      else if probe.type = "LargeTexture" then
        (FORMAT_V2_LARGE_TEXTURE, .ok, 4)
      else if probe.type = "CubeMap" then
        (FORMAT_V2_CUBEMAP, .ok, 4)
      else
        (FORMAT_NOT_TEXTURE, .errFileUnrecognized, 4)
    else
      (FORMAT_NOT_TEXTURE, probe.err, 4)
  else
    (FORMAT_NOT_TEXTURE, .errFileUnrecognized, 4)

/-- `TextureLoaderCompat::get_ver_major_from_textype` (lines 162-185). -/
def get_ver_major_from_textype (t : TextureVersionType) : Int :=
  match t with
  | FORMAT_V2_TEXTURE | FORMAT_V2_IMAGE_TEXTURE | FORMAT_V2_ATLAS_TEXTURE
  | FORMAT_V2_LARGE_TEXTURE | FORMAT_V2_CUBEMAP => 2
  | FORMAT_V3_ATLAS_TEXTURE | FORMAT_V3_IMAGE_TEXTURE | FORMAT_V3_STREAM_TEXTURE2D
  | FORMAT_V3_STREAM_TEXTURE3D | FORMAT_V3_STREAM_TEXTUREARRAY => 3
  | FORMAT_V4_ATLAS_TEXTURE | FORMAT_V4_IMAGE_TEXTURE | FORMAT_V4_COMPRESSED_TEXTURE2D
  | FORMAT_V4_COMPRESSED_TEXTURE3D | FORMAT_V4_COMPRESSED_TEXTURELAYERED => 4
  | FORMAT_NOT_TEXTURE => -1

/-- The extension test of `_load_data_ctexlayered_v4` (lines 644-647): its
local `is_layered` flag. -/
def ctexlayered_is_layered (ext : String) : Bool :=
  ext == "ctexarray" || ext == "ccube" || ext == "ccubearray"

/-- The four-byte magic at the start of a file. -/
def magic4 (bs : List Nat) : Nat × Nat × Nat × Nat :=
  (read8 bs 0, read8 bs 1, read8 bs 2, read8 bs 3)

/-- `ResourceInfo` as used by `merge_resource_info`: major version, logical
type name, resource format, original path, and the auxiliary `extra`
dictionary.  Only the integer-valued keys the merge touches matter, so the
dictionary is modelled as a finite map from key strings to integers. -/
structure RInfo where
  ver_major : Int
  type : String
  resource_format : String
  original_path : String
  extra : String → Option Int

/-- `Dictionary::has`. -/
def dictHas (d : String → Option Int) (k : String) : Bool :=
  (d k).isSome

/-- `Dictionary::operator[]` read access (a Variant that is 0 when absent). -/
def dictGet (d : String → Option Int) (k : String) : Int :=
  (d k).getD 0

/-- `Dictionary::operator[]` write access. -/
def dictSet (d : String → Option Int) (k : String) (v : Int) : String → Option Int :=
  fun k' => if k' = k then some v else d k'

/-- `merge_resource_info` (texture_loader_compat.cpp, lines 58-74):
`new_dict` receives `texture_dict`'s version, type and resource format; the
original path is taken from `texture_dict` only when `new_dict`'s is empty;
`texture_flags` is taken from `texture_dict`'s extra when present, otherwise
from the `int_flags` argument; `data_format` is copied from `texture_dict`'s
extra only when present there. -/
def merge_resource_info (new_dict texture_dict : RInfo) (int_flags : Int) : RInfo :=
  let d1 : RInfo :=
    { new_dict with
      ver_major := texture_dict.ver_major
      type := texture_dict.type
      resource_format := texture_dict.resource_format }
  let d2 : RInfo :=
    if d1.original_path = "" then { d1 with original_path := texture_dict.original_path }
    else d1
  let d3 : RInfo :=
    if dictHas texture_dict.extra "texture_flags" then
      { d2 with extra := dictSet d2.extra "texture_flags" (dictGet texture_dict.extra "texture_flags") }
    else
      { d2 with extra := dictSet d2.extra "texture_flags" int_flags }
  if dictHas texture_dict.extra "data_format" then
    { d3 with extra := dictSet d3.extra "data_format" (dictGet texture_dict.extra "data_format") }
  else d3

/-- C6: each of the four legacy stream magics and the two v4 magics maps to
exactly the expected variant — `GDST` to v3 stream 2D, `GD3T` to v3 stream
3D, `GDAT` to v3 stream array, `GSTL` to the v4 3D/layered pair (by
extension), `GST2` to v4 compressed 2D — consuming only the 4 magic bytes;
and any other leading 4-byte sequence that is not `RSRC`/`RSCC` yields the
not-a-texture sentinel with the unrecognized-format error. -/
theorem classify_magic_table (bs : List Nat) (ext : String) (pr : ProbeResult) :
    (magic4 bs = (71, 68, 83, 84) →
      recognize bs ext pr = (FORMAT_V3_STREAM_TEXTURE2D, .ok, 4)) ∧
    (magic4 bs = (71, 68, 51, 84) →
      recognize bs ext pr = (FORMAT_V3_STREAM_TEXTURE3D, .ok, 4)) ∧
    (magic4 bs = (71, 68, 65, 84) →
      recognize bs ext pr = (FORMAT_V3_STREAM_TEXTUREARRAY, .ok, 4)) ∧
    (magic4 bs = (71, 83, 84, 76) →
      recognize bs ext pr =
        ((if ext == "ctexarray" || ext == "ccube" || ext == "ccubearray" then
            FORMAT_V4_COMPRESSED_TEXTURELAYERED
          else FORMAT_V4_COMPRESSED_TEXTURE3D), .ok, 4)) ∧
    (magic4 bs = (71, 83, 84, 50) →
      recognize bs ext pr = (FORMAT_V4_COMPRESSED_TEXTURE2D, .ok, 4)) ∧
    (magic4 bs ∉ ([(71, 68, 83, 84), (71, 68, 51, 84), (71, 68, 65, 84),
        (71, 83, 84, 76), (71, 83, 84, 50), (82, 83, 82, 67), (82, 83, 67, 67)] :
          List (Nat × Nat × Nat × Nat)) →
      recognize bs ext pr = (FORMAT_NOT_TEXTURE, .errFileUnrecognized, 4)) := by
  simp only [magic4, Prod.mk.injEq, List.mem_cons, List.not_mem_nil, or_false, not_or]
  refine ⟨?_, ?_, ?_, ?_, ?_, ?_⟩ <;> intro h
  · obtain ⟨h0, h1, h2, h3⟩ := h
    simp [recognize, h0, h1, h2, h3]
  · obtain ⟨h0, h1, h2, h3⟩ := h
    simp [recognize, h0, h1, h2, h3]
  · obtain ⟨h0, h1, h2, h3⟩ := h
    simp [recognize, h0, h1, h2, h3]
  · obtain ⟨h0, h1, h2, h3⟩ := h
    by_cases hc : (ext == "ctexarray" || ext == "ccube" || ext == "ccubearray") = true
    · simp [recognize, h0, h1, h2, h3, hc]
    · simp only [Bool.not_eq_true] at hc
      simp [recognize, h0, h1, h2, h3, hc]
  · obtain ⟨h0, h1, h2, h3⟩ := h
    simp [recognize, h0, h1, h2, h3]
  · obtain ⟨n1, n2, n3, n4, n5, n6, n7⟩ := h
    simp only [recognize]
    rw [if_neg n1, if_neg n2, if_neg n3, if_neg n4, if_neg n5,
      if_neg (not_or.mpr ⟨n6, n7⟩)]

/-- C6 witness: on a concrete `GDST` file and a concrete unknown-magic file
the theorem applies as stated. -/
theorem classify_magic_table_witness :
    recognize [71, 68, 83, 84] "stex" ⟨.ok, "", 0⟩ =
      (FORMAT_V3_STREAM_TEXTURE2D, .ok, 4) ∧
    recognize [65, 66, 67, 68] "stex" ⟨.ok, "", 0⟩ =
      (FORMAT_NOT_TEXTURE, .errFileUnrecognized, 4) :=
  ⟨(classify_magic_table [71, 68, 83, 84] "stex" ⟨.ok, "", 0⟩).1 (by decide),
   (classify_magic_table [65, 66, 67, 68] "stex" ⟨.ok, "", 0⟩).2.2.2.2.2 (by decide)⟩

/-- C7 counterexample: the extension comparison is case-sensitive, so the
uppercase extension CTEXARRAY does not select the layered shape — `recognize`
classifies a `GSTL` file with that extension as plain volumetric, and the v4
layered decoder's `is_layered` test rejects it too, while the exact
lowercase spelling is accepted. -/
theorem gstl_extension_case_cex :
    recognize [71, 83, 84, 76] "CTEXARRAY" ⟨.ok, "", 0⟩ =
      (FORMAT_V4_COMPRESSED_TEXTURE3D, .ok, 4) ∧
    ctexlayered_is_layered "CTEXARRAY" = false ∧
    ctexlayered_is_layered "ctexarray" = true := by
  refine ⟨?_, by decide, by decide⟩
  have h0 : read8 [71, 83, 84, 76] 0 = 71 := rfl
  have h1 : read8 [71, 83, 84, 76] 1 = 83 := rfl
  have h2 : read8 [71, 83, 84, 76] 2 = 84 := rfl
  have h3 : read8 [71, 83, 84, 76] 3 = 76 := rfl
  have hc : (("CTEXARRAY" == "ctexarray") || ("CTEXARRAY" == "ccube") ||
      ("CTEXARRAY" == "ccubearray")) = false := by decide
  simp [recognize, h0, h1, h2, h3, hc]

/-- C7 (amended): within the `GSTL` family the layered/array shape is
selected exactly when the file extension equals one of `ctexarray`, `ccube`,
`ccubearray` by a case-sensitive exact comparison — in `recognize` and in
`_load_data_ctexlayered_v4`'s `is_layered` test alike — and every other
extension selects the plain volumetric shape. -/
theorem gstl_extension_exact_match (ext : String) (bs : List Nat) (pr : ProbeResult)
    (hmagic : magic4 bs = (71, 83, 84, 76)) :
    ((recognize bs ext pr).1 = FORMAT_V4_COMPRESSED_TEXTURELAYERED ↔
      (ext = "ctexarray" ∨ ext = "ccube" ∨ ext = "ccubearray")) ∧
    (ctexlayered_is_layered ext = true ↔
      (ext = "ctexarray" ∨ ext = "ccube" ∨ ext = "ccubearray")) ∧
    ((ext = "ctexarray" ∨ ext = "ccube" ∨ ext = "ccubearray") ∨
      (recognize bs ext pr).1 = FORMAT_V4_COMPRESSED_TEXTURE3D) := by
  simp only [magic4, Prod.mk.injEq] at hmagic
  obtain ⟨h0, h1, h2, h3⟩ := hmagic
  by_cases hc : (ext == "ctexarray" || ext == "ccube" || ext == "ccubearray") = true
  · have hmem : ext = "ctexarray" ∨ ext = "ccube" ∨ ext = "ccubearray" := by
      simp only [Bool.or_eq_true, beq_iff_eq] at hc
      tauto
    refine ⟨?_, ?_, Or.inl hmem⟩
    · simp [recognize, h0, h1, h2, h3, hc, hmem]
    · simp [ctexlayered_is_layered, hc, hmem]
  · have hmem : ¬ (ext = "ctexarray" ∨ ext = "ccube" ∨ ext = "ccubearray") := by
      simp only [Bool.or_eq_true, beq_iff_eq] at hc
      tauto
    simp only [Bool.not_eq_true] at hc
    refine ⟨?_, ?_, Or.inr ?_⟩
    · simp [recognize, h0, h1, h2, h3, hc, hmem]
    · simp [ctexlayered_is_layered, hc, hmem]
    · simp [recognize, h0, h1, h2, h3, hc]

/-- C7 witness: the amended theorem applied to a concrete `GSTL` file with
the `ccube` extension. -/
theorem gstl_extension_exact_match_witness :
    (((recognize [71, 83, 84, 76] "ccube" ⟨.ok, "", 0⟩).1 =
        FORMAT_V4_COMPRESSED_TEXTURELAYERED ↔
      ("ccube" = "ctexarray" ∨ "ccube" = "ccube" ∨ "ccube" = "ccubearray")) ∧
    (ctexlayered_is_layered "ccube" = true ↔
      ("ccube" = "ctexarray" ∨ "ccube" = "ccube" ∨ "ccube" = "ccubearray")) ∧
    (("ccube" = "ctexarray" ∨ "ccube" = "ccube" ∨ "ccube" = "ccubearray") ∨
      (recognize [71, 83, 84, 76] "ccube" ⟨.ok, "", 0⟩).1 =
        FORMAT_V4_COMPRESSED_TEXTURE3D)) :=
  gstl_extension_exact_match "ccube" [71, 83, 84, 76] ⟨.ok, "", 0⟩ (by decide)

/-- C8: for a legacy key-value container (`RSRC`/`RSCC`) probed as type
AtlasTexture, major version 1 or 2 classifies to the legacy-2 atlas variant,
version 3 to the legacy-3 atlas variant, and every other version to the
legacy-4 atlas variant; a missing-metadata probe result (ERR_PRINTER_ON_FIRE)
is treated as success, while any other probe failure makes `recognize`
return the sentinel propagating the probe's error. -/
theorem atlas_probe_classification (bs : List Nat) (ext : String) (pr : ProbeResult)
    (hmagic : magic4 bs = (82, 83, 82, 67) ∨ magic4 bs = (82, 83, 67, 67)) :
    ((pr.err = .ok ∨ pr.err = .errPrinterOnFire) → pr.type = "AtlasTexture" →
      recognize bs ext pr =
        ((if pr.ver_major = 1 ∨ pr.ver_major = 2 then FORMAT_V2_ATLAS_TEXTURE
          else if pr.ver_major = 3 then FORMAT_V3_ATLAS_TEXTURE
          else FORMAT_V4_ATLAS_TEXTURE), .ok, 4)) ∧
    (pr.err ≠ .ok → pr.err ≠ .errPrinterOnFire →
      recognize bs ext pr = (FORMAT_NOT_TEXTURE, pr.err, 4)) := by
  have hrsrc : (read8 bs 0 = 82 ∧ read8 bs 1 = 83 ∧ read8 bs 2 = 82 ∧ read8 bs 3 = 67) ∨
      (read8 bs 0 = 82 ∧ read8 bs 1 = 83 ∧ read8 bs 2 = 67 ∧ read8 bs 3 = 67) := by
    simpa [magic4, Prod.mk.injEq] using hmagic
  have hnot : ∀ a b c d : Nat,
      ((read8 bs 0 = a ∧ read8 bs 1 = b ∧ read8 bs 2 = c ∧ read8 bs 3 = d) →
        (a, b, c, d) = (82, 83, 82, 67) ∨ (a, b, c, d) = (82, 83, 67, 67)) := by
    rintro a b c d ⟨ha, hb, hc, hd⟩
    subst ha
    subst hb
    subst hc
    subst hd
    rcases hrsrc with ⟨x0, x1, x2, x3⟩ | ⟨x0, x1, x2, x3⟩
    · left
      simp [x0, x1, x2, x3]
    · right
      simp [x0, x1, x2, x3]
  constructor
  · rintro herr hty
    simp only [recognize]
    rw [if_neg (fun h => by simpa using hnot 71 68 83 84 h),
      if_neg (fun h => by simpa using hnot 71 68 51 84 h),
      if_neg (fun h => by simpa using hnot 71 68 65 84 h),
      if_neg (fun h => by simpa using hnot 71 83 84 76 h),
      if_neg (fun h => by simpa using hnot 71 83 84 50 h),
      if_pos hrsrc, if_pos (by tauto)]
    rw [if_neg (by simp [hty]), if_neg (by simp [hty]), if_pos hty]
    split_ifs <;> rfl
  · rintro herr1 herr2
    simp only [recognize]
    rw [if_neg (fun h => by simpa using hnot 71 68 83 84 h),
      if_neg (fun h => by simpa using hnot 71 68 51 84 h),
      if_neg (fun h => by simpa using hnot 71 68 65 84 h),
      if_neg (fun h => by simpa using hnot 71 83 84 76 h),
      if_neg (fun h => by simpa using hnot 71 83 84 50 h),
      if_pos hrsrc, if_neg (by tauto)]

/-- C8 witness: concrete applications — an `RSRC` AtlasTexture probed at
version 5 classifies to the legacy-4 atlas variant, and a failing probe
propagates its error through the sentinel. -/
theorem atlas_probe_classification_witness :
    recognize [82, 83, 82, 67] "res" ⟨.ok, "AtlasTexture", 5⟩ =
      (FORMAT_V4_ATLAS_TEXTURE, .ok, 4) ∧
    recognize [82, 83, 82, 67] "res" ⟨.failed, "AtlasTexture", 5⟩ =
      (FORMAT_NOT_TEXTURE, .failed, 4) := by
  constructor
  · have h := (atlas_probe_classification [82, 83, 82, 67] "res"
      ⟨.ok, "AtlasTexture", 5⟩ (by decide)).1 (Or.inl rfl) rfl
    rw [h]
    decide
  · exact (atlas_probe_classification [82, 83, 82, 67] "res"
      ⟨.failed, "AtlasTexture", 5⟩ (by decide)).2 (by decide) (by decide)

/-- C10: a legacy key-value container whose probed type name is Texture is
always classified as the version-2 plain texture variant, whatever major
version the probe reported, and that variant's derived major version is 2. -/
theorem texture_type_classifies_v2 (bs : List Nat) (ext : String) (pr : ProbeResult)
    (hmagic : magic4 bs = (82, 83, 82, 67) ∨ magic4 bs = (82, 83, 67, 67))
    (herr : pr.err = .ok ∨ pr.err = .errPrinterOnFire)
    (hty : pr.type = "Texture") :
    recognize bs ext pr = (FORMAT_V2_TEXTURE, .ok, 4) ∧
    get_ver_major_from_textype FORMAT_V2_TEXTURE = 2 := by
  have hrsrc : (read8 bs 0 = 82 ∧ read8 bs 1 = 83 ∧ read8 bs 2 = 82 ∧ read8 bs 3 = 67) ∨
      (read8 bs 0 = 82 ∧ read8 bs 1 = 83 ∧ read8 bs 2 = 67 ∧ read8 bs 3 = 67) := by
    simpa [magic4, Prod.mk.injEq] using hmagic
  have hnot : ∀ a b c d : Nat,
      ((read8 bs 0 = a ∧ read8 bs 1 = b ∧ read8 bs 2 = c ∧ read8 bs 3 = d) →
        (a, b, c, d) = (82, 83, 82, 67) ∨ (a, b, c, d) = (82, 83, 67, 67)) := by
    rintro a b c d ⟨ha, hb, hc, hd⟩
    subst ha
    subst hb
    subst hc
    subst hd
    rcases hrsrc with ⟨x0, x1, x2, x3⟩ | ⟨x0, x1, x2, x3⟩
    · left
      simp [x0, x1, x2, x3]
    · right
      simp [x0, x1, x2, x3]
  refine ⟨?_, rfl⟩
  simp only [recognize]
  rw [if_neg (fun h => by simpa using hnot 71 68 83 84 h),
    if_neg (fun h => by simpa using hnot 71 68 51 84 h),
    if_neg (fun h => by simpa using hnot 71 68 65 84 h),
    if_neg (fun h => by simpa using hnot 71 83 84 76 h),
    if_neg (fun h => by simpa using hnot 71 83 84 50 h),
    if_pos hrsrc, if_pos (by tauto), if_pos hty]

/-- C10 witness: a concrete `RSRC` container probed as a version-4 Texture is
still classified FORMAT_V2_TEXTURE. -/
theorem texture_type_classifies_v2_witness :
    recognize [82, 83, 67, 67] "tex" ⟨.ok, "Texture", 4⟩ =
      (FORMAT_V2_TEXTURE, .ok, 4) ∧
    get_ver_major_from_textype FORMAT_V2_TEXTURE = 2 :=
  texture_type_classifies_v2 [82, 83, 67, 67] "tex" ⟨.ok, "Texture", 4⟩
    (by decide) (Or.inl rfl) rfl

/-- A concrete decode-produced metadata record (first merge argument at both
converter call sites). -/
def decodeSideInfo : RInfo :=
  ⟨4, "CompressedTexture2D", "Texture", "res://decoded.ctex", fun _ => none⟩

/-- A concrete placeholder metadata record (second merge argument at both
converter call sites), carrying a stored texture_flags fact. -/
def placeholderSideInfo : RInfo :=
  ⟨2, "Texture", "Resource", "res://orig.tex",
    fun k => if k = "texture_flags" then some 7 else none⟩

/-- C9 counterexample: merging a decode-produced record (major version 4,
type CompressedTexture2D) with a placeholder record (major version 2, type
Texture) yields the placeholder's version and type, not the decode-provided
ones — the claimed precedence direction for version and type is reversed. -/
theorem merge_precedence_cex :
    decodeSideInfo.ver_major = 4 ∧
    placeholderSideInfo.ver_major = 2 ∧
    (merge_resource_info decodeSideInfo placeholderSideInfo 0).ver_major = 2 ∧
    decodeSideInfo.type = "CompressedTexture2D" ∧
    (merge_resource_info decodeSideInfo placeholderSideInfo 0).type = "Texture" := by
  refine ⟨rfl, rfl, ?_, rfl, ?_⟩ <;>
    simp [merge_resource_info, decodeSideInfo, placeholderSideInfo, dictHas, dictSet, dictGet]

/-- C9 (amended): `merge_resource_info` obeys this field precedence — the
second argument's (the placeholder's) major version, type and resource
format overwrite the merged record's; the original path already present in
the merged record is kept and is otherwise filled from the placeholder; the
placeholder's stored texture_flags override the caller-supplied default
flags, which are used only when the placeholder has none; the placeholder's
data_format fills or overrides when present and the merged record's own
value is kept otherwise. -/
theorem merge_precedence (n t : RInfo) (fl : Int) :
    (merge_resource_info n t fl).ver_major = t.ver_major ∧
    (merge_resource_info n t fl).type = t.type ∧
    (merge_resource_info n t fl).resource_format = t.resource_format ∧
    (merge_resource_info n t fl).original_path =
      (if n.original_path = "" then t.original_path else n.original_path) ∧
    dictGet (merge_resource_info n t fl).extra "texture_flags" =
      (if dictHas t.extra "texture_flags" then dictGet t.extra "texture_flags" else fl) ∧
    dictGet (merge_resource_info n t fl).extra "data_format" =
      (if dictHas t.extra "data_format" then dictGet t.extra "data_format"
       else dictGet n.extra "data_format") := by
  have hne : ("data_format" : String) ≠ "texture_flags" := by decide
  have hne2 : ("texture_flags" : String) ≠ "data_format" := by decide
  rcases htf : t.extra "texture_flags" with _ | vtf <;>
    rcases hdf : t.extra "data_format" with _ | vdf <;>
      by_cases hpath : n.original_path = "" <;>
        simp [merge_resource_info, dictGet, dictSet, dictHas, hpath, htf, hdf, hne, hne2]

/-- A decoded image: width, height, mipmap flag, pixel format code (v4
`Image::Format` as a number) and the pixel byte buffer. -/
structure Img where
  w : Nat
  h : Nat
  mip : Bool
  fmt : Nat
  data : List Nat
deriving DecidableEq, Repr

/-- Modelled from the spec: the `FORMAT_MAX` sentinel of the v4
`Image::Format` enumeration (external to src). -/
def FORMAT_MAX : Nat := 37

/-- Modelled from the spec: `V3Image::FORMAT_MAX` of the legacy v3 format
enumeration (external to src). -/
def V3_FORMAT_MAX : Nat := 38

/-- Modelled from the spec: bytes per pixel of the uncompressed v4 formats
this development exercises (L8 is 1 byte; a partial table suffices because
the size formula is only instantiated at these formats). -/
def pixelBytes (fmt : Nat) : Nat :=
  if fmt = 0 then 1 else if fmt = 1 then 2 else if fmt = 5 then 4 else 1

/-- Modelled from the spec:
`ImageEnumCompat::convert_image_format_enum_v3_to_v4` (external to src), the
v3-to-v4 raw pixel-format translation.  A partial table: v3 `L8` (code 1)
translates to v4 `L8` (code 0); every other code is out of the valid target
range and yields the `FORMAT_MAX` sentinel. -/
def convert_image_format_enum_v3_to_v4 (v3 : Nat) : Nat :=
  if v3 = 1 then 0 else FORMAT_MAX

/-- Modelled from the spec: `Image::get_image_required_mipmaps` — the number
of progressively half-sized levels below the top until 1x1 is reached.  The
fuel argument dominates the halving recursion. -/
def requiredMipmapsAux : Nat → Nat → Nat → Nat
  | 0, _, _ => 0
  | fuel + 1, w, h =>
    if w ≤ 1 ∧ h ≤ 1 then 0
    else requiredMipmapsAux fuel (max (w / 2) 1) (max (h / 2) 1) + 1

/-- Modelled from the spec: `Image::get_image_required_mipmaps`. -/
def get_image_required_mipmaps (w h : Nat) : Nat := requiredMipmapsAux (w + h) w h

/-- Modelled from the spec: the total byte size of `n` successive mip levels
starting at `w` by `h` with `p` bytes per pixel. -/
def sizeUpTo (p : Nat) : Nat → Nat → Nat → Nat
  | _, _, 0 => 0
  | w, h, n + 1 => w * h * p + sizeUpTo p (max (w / 2) 1) (max (h / 2) 1) n

/-- Modelled from the spec: `Image::get_image_data_size` — the deterministic
size formula over (width, height, format, mipmap flag). -/
def get_image_data_size (w h fmt : Nat) (mip : Bool) : Nat :=
  sizeUpTo (pixelBytes fmt) w h (1 + (if mip then get_image_required_mipmaps w h else 0))

/-- Modelled from the spec: `Image::get_image_mipmap_offset` — the byte
offset of mip level `idx` inside the full buffer. -/
def get_image_mipmap_offset (w h fmt idx : Nat) : Nat := sizeUpTo (pixelBytes fmt) w h idx

/-- Modelled from the spec: `Image::initialize_data` — accepts the buffer
only when its length equals the size formula for the given dimensions (and
the dimensions are positive); otherwise the image stays empty. -/
def initialize_data (w h : Nat) (mip : Bool) (fmt : Nat) (data : List Nat) : Img :=
  if 0 < w ∧ 0 < h ∧ data.length = get_image_data_size w h fmt mip then ⟨w, h, mip, fmt, data⟩
  else ⟨0, 0, false, 0, []⟩

/-- `FileAccess::get_buffer(wr, count)` into a freshly `resize`d (hence
zero-initialized) buffer: the buffer contents after the call and the number
of bytes actually read. -/
def getBuffer (bs : List Nat) (pos count : Nat) : List Nat × Nat :=
  let avail := min count (bs.length - pos)
  ((bs.drop pos).take avail ++ List.replicate (count - avail) 0, avail)

/-- Modelled from the spec: the embedded still-image codecs
(`Image::png_unpacker`, `WebPCompat::webp_unpack_v2v3`) and `Image::convert`
are opaque externals: `decode(bytes) -> image | null` plus a format
conversion. -/
structure Codec where
  png : List Nat → Option Img
  webp : List Nat → Option Img
  convertFmt : Img → Nat → Img

/-- The mip-skip loop of the embedded-codec branch of
`load_image_from_fileV3` (lines 282-290): while more than one level remains
and a positive size limit is exceeded, seek over the current level and
re-read the (mipmaps, size) pair, halving the tracked dimensions and
decrementing the 32-bit mip counter.  The fuel argument dominates the loop's
decreasing measure `sw + sh`. -/
def skipLevels (bs : List Nat) :
    Nat → Nat → Nat → Nat → Nat → Nat → Nat → Nat × Nat × Nat × Nat × Nat
  | 0, pos, mipmaps, size, sw, sh, _ => (pos, mipmaps, size, sw, sh)
  | fuel + 1, pos, mipmaps, size, sw, sh, limit =>
    if mipmaps > 1 ∧ limit > 0 ∧ (sw > limit ∨ sh > limit) then
      let pos2 := pos + size
      let m2 := read32 bs pos2
      let s2 := read32 bs (pos2 + 4)
      -- `mipmaps--` on a uint32_t: subtraction modulo 2^32
      skipLevels bs fuel (pos2 + 8) ((m2 + (2 ^ 32 - 1)) % 2 ^ 32) s2
        (max (sw / 2) 1) (max (sh / 2) 1) limit
    else (pos, mipmaps, size, sw, sh)

/-- The per-level read loop of the embedded-codec branch (lines 296-325):
each level is length-prefixed (the first level's length was already read),
decoded through the codec, checked non-null and non-empty, and converted to
the first level's format.  `first` is `none` on the first iteration and
carries the first level's format afterwards. -/
def readMips (c : Codec) (bs : List Nat) (usePng : Bool) :
    Nat → Nat → Nat → Option Nat → Except ErrMsg (List Img)
  | 0, _, _, _ => .ok []
  | n + 1, pos, size0, first =>
    let size := match first with | none => size0 | some _ => read32 bs pos
    let pos1 := match first with | none => pos | some _ => pos + 4
    if size = 0 then .error (.errFileCorrupt, "Texture is empty")
    else
      let rd := getBuffer bs pos1 size
      let pos2 := pos1 + rd.2
      match (if usePng then c.png rd.1 else c.webp rd.1) with
      | none => .error (.errFileCorrupt, "File is corrupt")
      | some img =>
        if img.data = [] then .error (.errFileCorrupt, "File is corrupt")
        else
          let f0 := match first with | none => img.fmt | some f => f
          let img2 := match first with | none => img | some f => c.convertFmt img f
          match readMips c bs usePng n pos2 0 (some f0) with
          | .error e => .error e
          | .ok rest => .ok (img2 :: rest)

/-- The final null/empty check of `load_image_from_fileV3` (line 416). -/
def fileV3FinalCheck (img : Img) : Except ErrMsg Img :=
  if img.data = [] then .error (.errFileCorrupt, "Failed to create image from texture")
  else .ok img

/-- The raw-branch mip truncation loop of `load_image_from_fileV3`
(lines 384-389): skip levels from the top while more than one level remains
and a positive limit is exceeded, tracking the index of the first kept
level.  The fuel argument dominates the decreasing measure `sw + sh`. -/
def shrinkRaw : Nat → Nat → Nat → Nat → Nat → Nat → Nat × Nat × Nat × Nat
  | 0, sw, sh, mipmaps2, idx, _ => (sw, sh, mipmaps2, idx)
  | fuel + 1, sw, sh, mipmaps2, idx, limit =>
    if mipmaps2 > 1 ∧ limit > 0 ∧ (sw > limit ∨ sh > limit) then
      shrinkRaw fuel (max (sw / 2) 1) (max (sh / 2) 1) (mipmaps2 - 1) (idx + 1) limit
    else (sw, sh, mipmaps2, idx)

/-- `TextureLoaderCompat::load_image_from_fileV3` (lines 266-418) over the
file bytes starting at `pos` (the stream position when the function is
entered), returning the decoded image or the error the source returns.  The
`tw_custom`, `th_custom` and `flags` parameters are accepted and ignored
exactly as in the source. -/
def load_image_from_fileV3 (c : Codec) (bs : List Nat) (pos : Nat)
    (tw th tw_custom th_custom flags p_size_limit df : Nat) : Except ErrMsg Img :=
  if df.testBit 20 ∨ df.testBit 21 then
    -- embedded-codec branch (PNG bit 20 / WebP bit 21)
    let mipmaps := read32 bs pos
    let size := read32 bs (pos + 4)
    let st := skipLevels bs (tw + th) (pos + 8) mipmaps size tw th p_size_limit
    match readMips c bs (df.testBit 20) st.2.1 st.1 st.2.2.1 none with
    | .error e => .error e
    | .ok imgs =>
      match imgs with
      | [] => .error (.failed, "CRASH_BAD_INDEX") -- mipmap_images[0] on an empty vector
      | i0 :: rest =>
        if rest = [] then fileV3FinalCheck i0
        else
          let data := (imgs.map Img.data).flatten
          fileV3FinalCheck (initialize_data tw th true i0.fmt data)
  else
    -- raw-format branch
    let v3_fmt := df % 2 ^ 20
    let format := convert_image_format_enum_v3_to_v4 v3_fmt
    if format = FORMAT_MAX then
      if 0 < v3_fmt ∧ v3_fmt < V3_FORMAT_MAX then
        .error (.errUnavailable, "Support for deprecated texture format is unimplemented.")
      else .error (.errFileCorrupt, "Texture is in an invalid format")
    else if ¬ df.testBit 23 then
      let size := get_image_data_size tw th format false
      let rd := getBuffer bs pos size
      fileV3FinalCheck (initialize_data tw th false format rd.1)
    else
      let mipmaps2 := get_image_required_mipmaps tw th
      let total_size := get_image_data_size tw th format true
      let st := shrinkRaw (tw + th) tw th mipmaps2 0 p_size_limit
      let ofs := get_image_mipmap_offset tw th format st.2.2.2
      if total_size ≤ ofs then
        .error (.errFileCorrupt, "Failed to create image from texture")
      else
        let expected := total_size - ofs
        let rd := getBuffer bs (pos + ofs) expected
        -- shortfall zero-fill (memset), then the unconditional
        -- ERR_FAIL_COND_V(bytes != expected, ERR_FILE_CORRUPT)
        if rd.2 ≠ expected then .error (.errFileCorrupt, "")
        else fileV3FinalCheck (initialize_data st.1 st.2.1 true format rd.1)

/-- `TextureLoaderCompat::_load_data_stex2d_v3` (lines 444-476): parse the
GDST header fields, discard the requested size limit (`p_size_limit = 0;`,
line 461) and delegate to `load_image_from_fileV3`.  Returns
(tw, tw_custom, th, th_custom, flags, image). -/
def load_data_stex2d_v3 (c : Codec) (bs : List Nat) (p_size_limit : Nat) :
    Except ErrMsg (Nat × Nat × Nat × Nat × Nat × Img) :=
  let tw := read16 bs 4
  let tw_custom := read16 bs 6
  let th := read16 bs 8
  let th_custom := read16 bs 10
  let flags := read32 bs 12
  let df := read32 bs 16
  match load_image_from_fileV3 c bs 20 tw th tw_custom th_custom flags 0 df with
  | .error e => .error e
  | .ok img => .ok (tw, tw_custom, th, th_custom, flags, img)

/-- A codec instance whose embedded decoders are never consulted (the raw
branch does not call them). -/
def fileV3NullCodec : Codec := ⟨fun _ => none, fun _ => none, fun i _ => i⟩

/-- A concrete GDST stream: 4 by 4, no size overrides, flags 0, data format
= raw v3 L8 with the mipmap bit (0x00800001), followed by only 21 data
bytes. -/
def gdstMip4File : List Nat :=
  [71, 68, 83, 84, 4, 0, 0, 0, 4, 0, 0, 0, 0, 0, 0, 0, 1, 0, 128, 0] ++
    List.replicate 21 5

/-- C1: in the shared raw mip-read path, a file whose remaining raw bytes
(3) are fewer than the computed size (21 = the full L8 4x4 mip chain) is
rejected with ERR_FILE_CORRUPT even though the shortfall was zero-filled
into a full-length buffer — the unconditional
`ERR_FAIL_COND_V(bytes != expected, ERR_FILE_CORRUPT)` on line 411 makes the
zero-fill workaround of lines 407-410 dead code, so the decode does not
succeed as the claim (and the source's own compatibility comment) state. -/
theorem raw_mip_shortfall_rejected :
    load_image_from_fileV3 fileV3NullCodec [1, 2, 3] 0 4 4 0 0 0 0 (2 ^ 23 + 1) =
      .error (.errFileCorrupt, "") ∧
    (getBuffer [1, 2, 3] 0 21).1 = [1, 2, 3] ++ List.replicate 18 0 ∧
    (getBuffer [1, 2, 3] 0 21).1.length = get_image_data_size 4 4 0 true := by
  refine ⟨?_, ?_, ?_⟩ <;> rfl

/-- C2 counterexample: a mipmapped 4 by 4 raw GDST file decoded through
`_load_data_stex2d_v3` with requested maximum edge length 1 still returns
the full 4 by 4 top level (which exceeds the limit although three mip levels
exist), because the function discards the requested limit. -/
theorem stex2d_size_limit_cex :
    load_data_stex2d_v3 fileV3NullCodec gdstMip4File 1 =
      .ok (4, 0, 4, 0, 0, ⟨4, 4, true, 0, List.replicate 21 5⟩) ∧
    get_image_required_mipmaps 4 4 = 2 ∧ (1 : Nat) < 4 := by
  refine ⟨rfl, rfl, by omega⟩

/-- C2 (amended): `_load_data_stex2d_v3` overrides the caller's requested
maximum edge length with zero (line 461) before delegating to
`load_image_from_fileV3`, so no mip-chain truncation ever happens through
this entry point: the decode result is the same for every requested limit
and equals the unlimited decode. -/
theorem stex2d_limit_ignored (c : Codec) (bs : List Nat) (L : Nat) :
    load_data_stex2d_v3 c bs L = load_data_stex2d_v3 c bs 0 := rfl

/-- Modelled from the spec: `CompressedTexture2D::load_image_from_file`, the
external v4 stream-body reader, as an opaque oracle from (stream position,
size limit) to an optional image and the position after the read. -/
structure LoadImgOracle where
  load : Nat → Nat → Option (Img × Nat)

/-- Modelled from the spec: `CompressedTexture2D::FORMAT_VERSION`, the
maximum supported stream version the v4 2D decoder gates against (external
constant; the layered decoder hardcodes the same bound 1). -/
def CompressedTexture2D_FORMAT_VERSION : Nat := 1

/-- `TextureLoaderCompat::_load_data_ctex2d_v4` (lines 478-519): magic (4
bytes, already checked), 32-bit version gated against the maximum, two
32-bit dimension overrides, texture flags, four skipped words, then the
external image read.  Returns the decoder result together with the final
header-read position, so that what was read past the version check is
observable; on the version gate the function has consumed exactly 8 bytes.
When a dimension override is set the corresponding out-parameter is left
unwritten in the source (modelled as 0). -/
def load_data_ctex2d_v4 (oracle : LoadImgOracle) (bs : List Nat) (p_size_limit : Nat) :
    Except ErrMsg (Nat × Nat × Nat × Nat × Nat × Nat × Img) × Nat :=
  let version := read32 bs 4
  if version > CompressedTexture2D_FORMAT_VERSION then
    (.error (.errFileCorrupt, "Compressed texture file is too new."), 8)
  else
    let tw_custom := read32 bs 8
    let th_custom := read32 bs 12
    let texture_flags := read32 bs 16
    -- skipped: mipmap_limit and three reserved words (bytes 20..35)
    let limit := if ¬ texture_flags.testBit 22 then 0 else p_size_limit
    let r_data_format := read32 bs 36 -- peeked and seeked back
    match oracle.load 36 limit with
    | none => (.error (.errCantOpen, ""), 36)
    | some (img, pos2) =>
      if img.data = [] then (.error (.errCantOpen, ""), pos2)
      else
        let tw := if tw_custom = 0 then img.w else 0
        let th := if th_custom = 0 then img.h else 0
        (.ok (tw, th, tw_custom, th_custom, r_data_format, texture_flags, img), pos2)

/-- The per-image loop of `_load_data_ctexlayered_v4` (lines 650-664): each
iteration loads one image through the external reader with size limit 0 and
fails with ERR_CANT_OPEN on a null or empty image. -/
def ctexlayeredLoop (oracle : LoadImgOracle) : Nat → Nat → Except ErrMsg (List Img × Nat)
  | 0, pos => .ok ([], pos)
  | n + 1, pos =>
    match oracle.load pos 0 with
    | none => .error (.errCantOpen, "")
    | some (img, pos2) =>
      if img.data = [] then .error (.errCantOpen, "")
      else
        match ctexlayeredLoop oracle n pos2 with
        | .error e => .error e
        | .ok (rest, pf) => .ok (img :: rest, pf)

/-- `TextureLoaderCompat::_load_data_ctexlayered_v4` (lines 616-667): `GSTL`
magic check, 32-bit version gated against 1, then depth, type, two unused
words, mip count and two ignored words (header ends at byte 36), the
case-sensitive extension test selecting the layered iteration count `depth`
versus the volumetric `depth + mipmaps`, and the image loop.  Returns the
result paired with the final header-read position: on the version gate the
function has consumed exactly 8 bytes.  Out-parameters never written by the
source (format and dimensions when the loop runs zero times, the data format
peeked only on the first iteration) are modelled as 0. -/
def load_data_ctexlayered_v4 (oracle : LoadImgOracle) (bs : List Nat) (ext : String) :
    Except ErrMsg (List Img × Nat × Nat × Nat × Nat × Nat × Bool × Nat) × Nat :=
  if ¬ (read8 bs 0 = 71 ∧ read8 bs 1 = 83 ∧ read8 bs 2 = 84 ∧ read8 bs 3 = 76) then
    (.error (.errFileUnrecognized, ""), 4)
  else
    let version := read32 bs 4
    if version > 1 then
      (.error (.errFileCorrupt, "Stream texture file is too new."), 8)
    else
      let depth := read32 bs 8
      let ty := read32 bs 12
      let mipmaps := read32 bs 24
      let is_layered := ctexlayered_is_layered ext
      let limit := if is_layered then depth else depth + mipmaps
      let r_data_format := if limit > 0 then read32 bs 36 else 0
      match ctexlayeredLoop oracle limit 36 with
      | .error e => (.error e, 36)
      | .ok (imgs, pf) =>
        match imgs with
        | [] => (.ok ([], 0, 0, 0, depth, ty, decide (mipmaps ≠ 0), r_data_format), pf)
        | i0 :: _ =>
          (.ok (imgs, i0.fmt, i0.w, i0.h, depth, ty, decide (mipmaps ≠ 0), r_data_format), pf)

/-- C5: a stream-v4 file whose 32-bit version word exceeds the supported
maximum (1) fails in both shape decoders with the file-too-new error
(ERR_FILE_CORRUPT with the too-new message) immediately after the version
word: the returned stream position is 8 = magic + version, so no header
field past the version check is read and no partial parse is attempted. -/
theorem v4_version_gate (oracle : LoadImgOracle) (bs : List Nat) (ext : String)
    (L : Nat) (hv : read32 bs 4 > 1) :
    load_data_ctex2d_v4 oracle bs L =
      (.error (.errFileCorrupt, "Compressed texture file is too new."), 8) ∧
    (magic4 bs = (71, 83, 84, 76) →
      load_data_ctexlayered_v4 oracle bs ext =
        (.error (.errFileCorrupt, "Stream texture file is too new."), 8)) := by
  constructor
  · simp only [load_data_ctex2d_v4, CompressedTexture2D_FORMAT_VERSION]
    rw [if_pos hv]
  · intro hmagic
    simp only [magic4, Prod.mk.injEq] at hmagic
    obtain ⟨h0, h1, h2, h3⟩ := hmagic
    simp only [load_data_ctexlayered_v4, h0, h1, h2, h3]
    rw [if_neg (by simp), if_pos hv]

/-- C5 witness: a concrete `GSTL` file with version word 2 = maximum + 1
fails too-new in both decoders, at stream position 8. -/
theorem v4_version_gate_witness :
    load_data_ctex2d_v4 ⟨fun _ _ => none⟩ [71, 83, 84, 76, 2, 0, 0, 0] 0 =
      (.error (.errFileCorrupt, "Compressed texture file is too new."), 8) ∧
    load_data_ctexlayered_v4 ⟨fun _ _ => none⟩ [71, 83, 84, 76, 2, 0, 0, 0] "ctex3d" =
      (.error (.errFileCorrupt, "Stream texture file is too new."), 8) :=
  ⟨(v4_version_gate ⟨fun _ _ => none⟩ [71, 83, 84, 76, 2, 0, 0, 0] "ctex3d" 0
      (by decide)).1,
   (v4_version_gate ⟨fun _ _ => none⟩ [71, 83, 84, 76, 2, 0, 0, 0] "ctex3d" 0
      (by decide)).2 (by decide)⟩

/-- A tile: a 2D integer offset plus its image (`Piece`, lines 1245-1248,
with the `Texture2D` dereferenced to the image the walk actually uses). -/
structure Piece where
  ox : Nat
  oy : Nat
  img : Img
deriving DecidableEq, Repr

/-- `CustomPieceSort::compare` (lines 1250-1258): strict row-major order,
vertical offset first, then horizontal. -/
def pieceLess (a b : Piece) : Bool :=
  if a.oy ≠ b.oy then a.oy < b.oy else a.ox < b.ox

/-- The comparator as a relation. -/
def pieceLt (a b : Piece) : Prop := pieceLess a b = true

instance : DecidableRel pieceLt := fun _ _ => instDecidableEqBool _ _

/-- `pieces.sort_custom<CustomPieceSort>()` (line 1290), modelled as
insertion sort with the source's comparator; on inputs with pairwise
distinct offsets every comparison sort produces this unique result. -/
def sortPieces (l : List Piece) : List Piece := List.insertionSort pieceLt l

/-- Modelled from the spec: `Image::create_empty` — a synthetic blank image
of the given dimensions, zero-filled at the size formula's length. -/
def blankImg (w h : Nat) (mip : Bool) (fmt : Nat) : Img :=
  ⟨w, h, mip, fmt, List.replicate (get_image_data_size w h fmt mip) 0⟩

/-- The row-wrap step shared by all three cursor advances (lines 1315-1318,
1321-1324, 1341-1345): reset to column 0 and move down one maximal tile
height whenever the horizontal cursor reaches the canvas width. -/
def stepWrap (x y W mxH : Nat) : Nat × Nat :=
  if x ≥ W then (0, y + mxH) else (x, y)

/-- The main reassembly loop of `LargeTextureConverterCompat::convert`
(lines 1299-1327): for each sorted piece, emit synthetic blanks (sized to
the lesser of the maximal piece size and the remaining canvas edges, with
the awaited piece's mipmap flag and format) until the cursor reaches the
piece's offset, then emit the piece and advance by its own width.  The
source's gap loop has no termination guarantee, so the model carries fuel
(one unit per emitted tile or final return) and yields `none` when it runs
out.  Returns the emitted tiles and the final cursor. -/
def walkMain : Nat → List Piece → Nat → Nat → Nat → Nat → Nat → Nat →
    Option (List Piece × Nat × Nat)
  | 0, _, _, _, _, _, _, _ => none
  | _ + 1, [], ex, ey, _, _, _, _ => some ([], ex, ey)
  | fuel + 1, p :: rest, ex, ey, W, H, mxW, mxH =>
    if p.ox = ex ∧ p.oy = ey then
      let c := stepWrap (p.ox + p.img.w) ey W mxH
      match walkMain fuel rest c.1 c.2 W H mxW mxH with
      | none => none
      | some (outs, fx, fy) => some (p :: outs, fx, fy)
    else
      let gw := min mxW (W - ex)
      let gh := min mxH (H - ey)
      let c := stepWrap (ex + gw) ey W mxH
      match walkMain fuel (p :: rest) c.1 c.2 W H mxW mxH with
      | none => none
      | some (outs, fx, fy) =>
        some (⟨ex, ey, blankImg gw gh p.img.mip p.img.fmt⟩ :: outs, fx, fy)

/-- The trailing filler loop of `convert` (lines 1329-1346): keep emitting
blanks until the vertical cursor reaches the canvas height; each blank takes
its mipmap flag and format from `images[0]`, the first tile emitted so far —
passed here as `attrs`, with `none` marking the out-of-bounds access the
source makes when no tile was emitted at all. -/
def walkTail : Nat → Nat → Nat → Nat → Nat → Nat → Nat → Option (Bool × Nat) →
    Option (List Piece)
  | 0, _, ey, _, H, _, _, _ => if ey < H then none else some []
  | _ + 1, _, ey, _, H, _, _, none => if ey < H then none else some []
  | fuel + 1, ex, ey, W, H, mxW, mxH, some a =>
    if ey < H then
      let gw := min mxW (W - ex)
      let gh := min mxH (H - ey)
      let c := stepWrap (ex + gw) ey W mxH
      match walkTail fuel c.1 c.2 W H mxW mxH (some a) with
      | none => none
      | some outs => some (⟨ex, ey, blankImg gw gh a.1 a.2⟩ :: outs)
    else some []

/-- `max_piece_size` (lines 1270 and 1285-1287): the componentwise maximum
of the input tiles' image sizes, folded in input order. -/
def maxSizes (l : List Piece) : Nat × Nat :=
  l.foldl (fun acc p => (max acc.1 p.img.w, max acc.2 p.img.h)) (0, 0)

/-- The algorithmic core of `LargeTextureConverterCompat::convert`
(lines 1265-1347): compute the maximal piece size, sort the pieces
row-major, run the gap-filling walk from (0,0) and then the trailing filler,
returning the reassembled tile sequence (offsets and images).  The
conversion of each `MissingResource` piece to an image and the final
`_set_tex`/metadata steps around this core are host-binding glue. -/
def largeTexConvert (fuel : Nat) (l : List Piece) (W H : Nat) :
    Option (List Piece) :=
  let mx := maxSizes l
  let pieces := sortPieces l
  match walkMain fuel pieces 0 0 W H mx.1 mx.2 with
  | none => none
  | some (outs, ex, ey) =>
    match walkTail fuel ex ey W H mx.1 mx.2
        ((outs.head?).map fun p => (p.img.mip, p.img.fmt)) with
    | none => none
    | some touts => some (outs ++ touts)

/-- Ceiling division. -/
def cdiv (a b : Nat) : Nat := (a + b - 1) / b

/-- The row-major offset of grid cell `k` on a grid with `ncols` columns of
horizontal pitch `T`. -/
def cellPos (ncols T k : Nat) : Nat × Nat := (k % ncols * T, k / ncols * T)

/-- The row-major list of grid-cell offsets of a `W` by `H` canvas tiled at
pitch `T`. -/
def gridOffsets (W H T : Nat) : List (Nat × Nat) :=
  (List.range (cdiv W T * cdiv H T)).map (cellPos (cdiv W T) T)

/-- `g` is a full row-major tiling of the `W` by `H` canvas with uniform
tile size `T` clipped at the right and bottom edges: the offsets are exactly
the grid offsets in order and every tile has the clipped cell size. -/
def gridCover (W H T : Nat) (g : List Piece) : Prop :=
  g.map (fun p => (p.ox, p.oy)) = gridOffsets W H T ∧
  ∀ p ∈ g, p.img.w = min T (W - p.ox) ∧ p.img.h = min T (H - p.oy)

/-- The cursor position of the walk when it is about to handle grid cell `k`
(for `k` past the last cell: the wrapped final position). -/
def cursorAt (W H T k : Nat) : Nat × Nat :=
  if k < cdiv W T * cdiv H T then cellPos (cdiv W T) T k
  else (0, (cdiv H T - 1) * T + min T H)

/-- The tiles the main walk emits, expressed against the full grid cover:
walk the grid cells; a piece whose offset matches the current cell is
emitted as is, otherwise the cell is filled with a blank of the cell's size
carrying the awaited piece's attributes. -/
def expectedWalk : List Piece → List Piece → List Piece
  | _, [] => []
  | [], _ :: _ => []
  | gk :: gs, p :: rest =>
    if p.ox = gk.ox ∧ p.oy = gk.oy then p :: expectedWalk gs rest
    else ⟨gk.ox, gk.oy, blankImg gk.img.w gk.img.h p.img.mip p.img.fmt⟩ ::
      expectedWalk gs (p :: rest)

/-- The tiles the trailing filler emits for the remaining grid cells. -/
def tailBlanks (gs : List Piece) (a : Bool × Nat) : List Piece :=
  gs.map fun gk => ⟨gk.ox, gk.oy, blankImg gk.img.w gk.img.h a.1 a.2⟩

/-- The comparator decides strict lexicographic order on (oy, ox). -/
theorem pieceLt_iff (a b : Piece) :
    pieceLt a b ↔ (a.oy < b.oy ∨ (a.oy = b.oy ∧ a.ox < b.ox)) := by
  unfold pieceLt pieceLess
  by_cases h : a.oy = b.oy <;> simp [h]

/-- The comparator is transitive. -/
theorem pieceLt_trans {a b c : Piece} (h1 : pieceLt a b) (h2 : pieceLt b c) :
    pieceLt a c := by
  rw [pieceLt_iff] at *
  omega

/-- The comparator is asymmetric. -/
theorem pieceLt_asymm {a b : Piece} (h1 : pieceLt a b) (h2 : pieceLt b a) : False := by
  rw [pieceLt_iff] at *
  omega

/-- Inserting an element comparable to (hence offset-distinct from) every
member of a strictly sorted list keeps the list strictly sorted. -/
theorem pairwise_orderedInsert (a : Piece) (l : List Piece)
    (ha : ∀ b ∈ l, pieceLt a b ∨ pieceLt b a) (hl : l.Pairwise pieceLt) :
    (List.orderedInsert pieceLt a l).Pairwise pieceLt := by
  induction l with
  | nil => simp [List.orderedInsert]
  | cons b l ih =>
    rw [List.orderedInsert]
    by_cases hab : pieceLt a b
    · rw [if_pos hab]
      have hbl := List.pairwise_cons.mp hl
      refine List.pairwise_cons.mpr ⟨?_, hl⟩
      intro x hx
      rcases List.mem_cons.mp hx with rfl | hx
      · exact hab
      · exact pieceLt_trans hab (hbl.1 x hx)
    · rw [if_neg hab]
      have hba : pieceLt b a := (ha b (List.mem_cons_self b l)).resolve_left hab
      have hbl := List.pairwise_cons.mp hl
      refine List.pairwise_cons.mpr
        ⟨?_, ih (fun x hx => ha x (List.mem_cons_of_mem b hx)) hbl.2⟩
      intro x hx
      rcases (List.mem_orderedInsert pieceLt).mp hx with rfl | hx
      · exact hba
      · exact hbl.1 x hx

/-- Sorting a list of pairwise comparable (offset-distinct) pieces produces
a strictly sorted list. -/
theorem pairwise_sortPieces (l : List Piece)
    (hl : l.Pairwise (fun a b => pieceLt a b ∨ pieceLt b a)) :
    (sortPieces l).Pairwise pieceLt := by
  unfold sortPieces
  induction l with
  | nil => simp
  | cons a l ih =>
    rw [List.insertionSort]
    have hc := List.pairwise_cons.mp hl
    refine pairwise_orderedInsert a _ ?_ (ih hc.2)
    intro b hb
    exact hc.1 b ((List.mem_insertionSort pieceLt).mp hb)

/-- On inputs that are permutations of a strictly row-major-sorted list, the
source's sort reproduces exactly that list. -/
theorem sortPieces_eq_of_perm (l g : List Piece) (hperm : l.Perm g)
    (hsort : g.Pairwise pieceLt) : sortPieces l = g := by
  haveI : IsAntisymm Piece pieceLt := ⟨fun _ _ h1 h2 => (pieceLt_asymm h1 h2).elim⟩
  have h1 : (sortPieces l).Perm g := (List.perm_insertionSort pieceLt l).trans hperm
  have hcomp : l.Pairwise (fun a b => pieceLt a b ∨ pieceLt b a) := by
    have hgc : g.Pairwise (fun a b => pieceLt a b ∨ pieceLt b a) := hsort.imp Or.inl
    exact (hperm.pairwise_iff (fun {x y} h => h.symm)).mpr hgc
  exact List.eq_of_perm_of_sorted h1 (pairwise_sortPieces l hcomp) hsort

/-- Strict bound characterization of ceiling division. -/
theorem lt_cdiv_iff (a b c : Nat) (hb : 0 < b) : c < cdiv a b ↔ c * b < a := by
  unfold cdiv
  rw [Nat.lt_iff_add_one_le, Nat.le_div_iff_mul_le hb, Nat.succ_mul]
  omega

/-- Ceiling division covers the dividend. -/
theorem le_cdiv_mul (a b : Nat) (hb : 0 < b) : a ≤ cdiv a b * b := by
  unfold cdiv
  have h := Nat.div_add_mod (a + b - 1) b
  have h2 : (a + b - 1) % b < b := Nat.mod_lt _ hb
  rw [Nat.mul_comm]
  omega

/-- Ceiling division of positives is positive. -/
theorem cdiv_pos (a b : Nat) (ha : 0 < a) (hb : 0 < b) : 0 < cdiv a b :=
  (lt_cdiv_iff a b 0 hb).mpr (by simpa using ha)

/-- Incrementing below the row end: mod and div of `k + 1`. -/
theorem succ_mod_div_of_lt (k n : Nat) (hn : 0 < n) (h : k % n + 1 < n) :
    (k + 1) % n = k % n + 1 ∧ (k + 1) / n = k / n := by
  have hd := Nat.div_add_mod k n
  have he : k + 1 = (k % n + 1) + n * (k / n) := by omega
  constructor
  · rw [he, Nat.add_mul_mod_self_left, Nat.mod_eq_of_lt h]
  · rw [he, Nat.add_mul_div_left _ _ hn, Nat.div_eq_of_lt h, Nat.zero_add]

/-- Incrementing at the row end: mod and div of `k + 1`. -/
theorem succ_mod_div_of_last (k n : Nat) (hn : 0 < n) (h : k % n + 1 = n) :
    (k + 1) % n = 0 ∧ (k + 1) / n = k / n + 1 := by
  have hd := Nat.div_add_mod k n
  have e1 : n * (k / n + 1) = n * (k / n) + n := by ring
  have he : k + 1 = n * (k / n + 1) := by omega
  rw [he]
  exact ⟨Nat.mul_mod_right n _, Nat.mul_div_cancel_left _ hn⟩

/-- Grid cells are horizontally inside the canvas. -/
theorem cellX_lt (W H T k : Nat) (hW : 0 < W) (hT : 0 < T)
    (hk : k < cdiv W T * cdiv H T) : k % cdiv W T * T < W := by
  have hnc : 0 < cdiv W T := cdiv_pos W T hW hT
  exact (lt_cdiv_iff W T _ hT).mp (Nat.mod_lt _ hnc)

/-- Grid cells are vertically inside the canvas. -/
theorem cellY_lt (W H T k : Nat) (hW : 0 < W) (hH : 0 < H) (hT : 0 < T)
    (hk : k < cdiv W T * cdiv H T) : k / cdiv W T * T < H := by
  have hnc : 0 < cdiv W T := cdiv_pos W T hW hT
  have hd : k / cdiv W T < cdiv H T :=
    (Nat.div_lt_iff_lt_mul hnc).mpr (by rw [Nat.mul_comm] at hk; exact hk)
  exact (lt_cdiv_iff H T _ hT).mp hd

/-- Distinct cells have distinct offsets. -/
theorem cellPos_inj (nc T j k : Nat) (hT : 0 < T)
    (h : cellPos nc T j = cellPos nc T k) : j % nc = k % nc ∧ j / nc = k / nc := by
  unfold cellPos at h
  rw [Prod.mk.injEq] at h
  exact ⟨Nat.eq_of_mul_eq_mul_right hT h.1, Nat.eq_of_mul_eq_mul_right hT h.2⟩

/-- Advancing the cursor from cell `k` by that cell's clipped width lands on
cell `k + 1` (wrapping at the row end by one maximal tile height, which on
the grid equals `min T H`). -/
theorem cursor_advance (W H T k : Nat) (hW : 0 < W) (hH : 0 < H) (hT : 0 < T)
    (hk : k < cdiv W T * cdiv H T) :
    stepWrap (k % cdiv W T * T + min T (W - k % cdiv W T * T)) (k / cdiv W T * T)
      W (min T H) = cursorAt W H T (k + 1) := by
  have hnc : 0 < cdiv W T := cdiv_pos W T hW hT
  have hnr : 0 < cdiv H T := cdiv_pos H T hH hT
  have hr : k % cdiv W T < cdiv W T := Nat.mod_lt _ hnc
  have hd : k / cdiv W T < cdiv H T :=
    (Nat.div_lt_iff_lt_mul hnc).mpr (by rw [Nat.mul_comm] at hk; exact hk)
  have hxlt : k % cdiv W T * T < W := cellX_lt W H T k hW hT hk
  have hdm := Nat.div_add_mod k (cdiv W T)
  have e1 : cdiv W T * (cdiv H T - 1) + cdiv W T = cdiv W T * cdiv H T := by
    have h2 : cdiv H T - 1 + 1 = cdiv H T := by omega
    calc cdiv W T * (cdiv H T - 1) + cdiv W T
        = cdiv W T * (cdiv H T - 1 + 1) := by ring
      _ = cdiv W T * cdiv H T := by rw [h2]
  by_cases hlast : k % cdiv W T + 1 < cdiv W T
  · have hx2 : (k % cdiv W T + 1) * T < W := (lt_cdiv_iff W T _ hT).mp hlast
    rw [Nat.succ_mul] at hx2
    have hmin : min T (W - k % cdiv W T * T) = T := by omega
    have hmod := succ_mod_div_of_lt k (cdiv W T) hnc hlast
    have hk1 : k + 1 < cdiv W T * cdiv H T := by
      have hdle : k / cdiv W T ≤ cdiv H T - 1 := by omega
      have e2 : cdiv W T * (k / cdiv W T) ≤ cdiv W T * (cdiv H T - 1) :=
        Nat.mul_le_mul_left _ hdle
      omega
    rw [hmin]
    unfold stepWrap
    rw [if_neg (by omega)]
    unfold cursorAt
    rw [if_pos hk1]
    unfold cellPos
    rw [hmod.1, hmod.2, Nat.succ_mul]
  · have hxe : k % cdiv W T + 1 = cdiv W T := by omega
    have hge : W ≤ k % cdiv W T * T + T := by
      by_contra hcon
      push_neg at hcon
      have := (lt_cdiv_iff W T (k % cdiv W T + 1) hT).mpr (by rw [Nat.succ_mul]; omega)
      omega
    have hmin : min T (W - k % cdiv W T * T) = W - k % cdiv W T * T := by omega
    have hsum : k % cdiv W T * T + (W - k % cdiv W T * T) = W := by omega
    rw [hmin, hsum]
    unfold stepWrap
    rw [if_pos (le_refl W)]
    have hmod := succ_mod_div_of_last k (cdiv W T) hnc hxe
    by_cases hlastrow : k / cdiv W T + 1 < cdiv H T
    · have hTH : T < H := by
        have h1 : 1 < cdiv H T := Nat.lt_of_le_of_lt (Nat.le_add_left 1 _) hlastrow
        have := (lt_cdiv_iff H T 1 hT).mp h1
        omega
      have hminH : min T H = T := by omega
      have hk1 : k + 1 < cdiv W T * cdiv H T := by
        have hdle : k / cdiv W T + 1 ≤ cdiv H T - 1 := by omega
        have e2 : cdiv W T * (k / cdiv W T + 1) ≤ cdiv W T * (cdiv H T - 1) :=
          Nat.mul_le_mul_left _ hdle
        have e3 : cdiv W T * (k / cdiv W T + 1) = cdiv W T * (k / cdiv W T) + cdiv W T := by
          ring
        omega
      unfold cursorAt
      rw [if_pos hk1]
      unfold cellPos
      rw [hmod.1, hmod.2, hminH, Nat.succ_mul]
      simp
    · have hde : k / cdiv W T + 1 = cdiv H T := by omega
      have hk1 : ¬ (k + 1 < cdiv W T * cdiv H T) := by
        have e3 : cdiv W T * (k / cdiv W T + 1) = cdiv W T * (k / cdiv W T) + cdiv W T := by
          ring
        have e4 : cdiv W T * (k / cdiv W T + 1) = cdiv W T * cdiv H T := by rw [hde]
        omega
      unfold cursorAt
      rw [if_neg hk1]
      have he : k / cdiv W T = cdiv H T - 1 := by omega
      rw [he]

/-- Past the last cell the wrapped cursor is at or below the canvas
bottom. -/
theorem tail_stop (W H T : Nat) (hW : 0 < W) (hH : 0 < H) (hT : 0 < T) :
    H ≤ (cdiv H T - 1) * T + min T H := by
  have hnr : 0 < cdiv H T := cdiv_pos H T hH hT
  by_cases h1 : 1 < cdiv H T
  · have hTH : T < H := by
      have := (lt_cdiv_iff H T 1 hT).mp h1
      omega
    have hcov := le_cdiv_mul H T hT
    have e : (cdiv H T - 1) * T + T = cdiv H T * T := by
      have h2 : cdiv H T - 1 + 1 = cdiv H T := by omega
      calc (cdiv H T - 1) * T + T = (cdiv H T - 1 + 1) * T := by ring
        _ = cdiv H T * T := by rw [h2]
    omega
  · have hnr1 : cdiv H T = 1 := by omega
    have hHT : H ≤ T := by
      by_contra hcon
      push_neg at hcon
      have := (lt_cdiv_iff H T 1 hT).mpr (by omega)
      omega
    rw [hnr1]
    omega

/-- The walk starts at the first cell. -/
theorem cursorAt_zero (W H T : Nat) (hW : 0 < W) (hH : 0 < H) (hT : 0 < T) :
    cursorAt W H T 0 = (0, 0) := by
  unfold cursorAt
  rw [if_pos (Nat.mul_pos (cdiv_pos W T hW hT) (cdiv_pos H T hH hT))]
  unfold cellPos
  simp

/-- Clipping by the grid maximum then by the canvas edge equals clipping by
the pitch then the edge. -/
theorem gap_min (x a b : Nat) : min (min a b) (b - x) = min a (b - x) := by omega

/-- The row-major cell offsets from cell `k` on, `n` cells long. -/
def cellOffsetsFrom (nc T k n : Nat) : List (Nat × Nat) :=
  (List.range n).map (fun i => cellPos nc T (k + i))

/-- Peeling one cell off the offsets list. -/
theorem cellOffsetsFrom_succ (nc T k n : Nat) :
    cellOffsetsFrom nc T k (n + 1) =
      cellPos nc T k :: cellOffsetsFrom nc T (k + 1) n := by
  unfold cellOffsetsFrom
  rw [List.range_succ_eq_map, List.map_cons, List.map_map]
  refine congrArg₂ _ (by simp) ?_
  refine List.map_congr_left ?_
  intro i _
  simp [Function.comp]
  congr 1
  omega

/-- The full grid offsets list is the offsets-from-zero list. -/
theorem gridOffsets_eq (W H T : Nat) :
    gridOffsets W H T = cellOffsetsFrom (cdiv W T) T 0 (cdiv W T * cdiv H T) := by
  unfold gridOffsets cellOffsetsFrom
  refine List.map_congr_left ?_
  intro i _
  simp

/-- A sublist of a cons is, after dropping its own head, a sublist of the
tail. -/
theorem sublist_tail_cons {a gk : Piece} {rest gs : List Piece}
    (h : List.Sublist (a :: rest) (gk :: gs)) : List.Sublist rest gs := by
  cases h with
  | cons _ h => exact (List.tail_sublist (a :: rest)).trans h
  | cons₂ _ h => exact h

/-- A cons sublist whose head differs from the outer head lives in the
tail. -/
theorem sublist_of_head_ne {p gk : Piece} {rest gs : List Piece}
    (h : List.Sublist (p :: rest) (gk :: gs)) (hne : p ≠ gk) :
    List.Sublist (p :: rest) gs := by
  cases h with
  | cons _ h => exact h
  | cons₂ _ h => exact absurd rfl hne

/-- The main walk never emits more tiles than grid cells remain. -/
theorem expectedWalk_length_le (gs sub : List Piece) :
    (expectedWalk gs sub).length ≤ gs.length := by
  induction gs generalizing sub with
  | nil => cases sub <;> simp [expectedWalk]
  | cons gk gs ih =>
    cases sub with
    | nil => simp [expectedWalk]
    | cons p rest =>
      simp only [expectedWalk]
      split
      · simpa using ih rest
      · simpa using ih (p :: rest)

/-- The main walk's output offsets are the offsets of exactly the leading
grid cells it covered. -/
theorem expectedWalk_offsets (gs sub : List Piece) :
    (expectedWalk gs sub).map (fun q => (q.ox, q.oy)) =
      (gs.take (expectedWalk gs sub).length).map (fun q => (q.ox, q.oy)) := by
  induction gs generalizing sub with
  | nil => cases sub <;> simp [expectedWalk]
  | cons gk gs ih =>
    cases sub with
    | nil => simp [expectedWalk]
    | cons p rest =>
      simp only [expectedWalk]
      split
      · rename_i hc
        simp only [List.map_cons, List.length_cons, List.take_succ_cons]
        rw [ih rest]
        congr 1
        rw [hc.1, hc.2]
      · simp only [List.map_cons, List.length_cons, List.take_succ_cons]
        rw [ih (p :: rest)]

/-- Every tile the main walk emits is a supplied piece or a synthetic blank
at some grid cell. -/
theorem expectedWalk_mem (gs sub : List Piece) (q : Piece)
    (hq : q ∈ expectedWalk gs sub) :
    q ∈ sub ∨ ∃ gk ∈ gs, ∃ m f, q = ⟨gk.ox, gk.oy, blankImg gk.img.w gk.img.h m f⟩ := by
  induction gs generalizing sub with
  | nil => cases sub <;> simp [expectedWalk] at hq
  | cons gk gs ih =>
    cases sub with
    | nil => simp [expectedWalk] at hq
    | cons p rest =>
      simp only [expectedWalk] at hq
      split at hq
      · rcases List.mem_cons.mp hq with rfl | hq
        · exact Or.inl (List.mem_cons_self _ _)
        · rcases ih rest hq with h | ⟨gk', hgk', m, f, he⟩
          · exact Or.inl (List.mem_cons_of_mem _ h)
          · exact Or.inr ⟨gk', List.mem_cons_of_mem _ hgk', m, f, he⟩
      · rcases List.mem_cons.mp hq with rfl | hq
        · exact Or.inr ⟨gk, List.mem_cons_self _ _, p.img.mip, p.img.fmt, rfl⟩
        · rcases ih (p :: rest) hq with h | ⟨gk', hgk', m, f, he⟩
          · exact Or.inl h
          · exact Or.inr ⟨gk', List.mem_cons_of_mem _ hgk', m, f, he⟩

/-- Every supplied piece appears in the main walk's output. -/
theorem expectedWalk_subset (gs sub : List Piece) (hsub : List.Sublist sub gs)
    (q : Piece) (hq : q ∈ sub) : q ∈ expectedWalk gs sub := by
  induction gs generalizing sub with
  | nil =>
    rw [List.sublist_nil.mp hsub] at hq
    simp at hq
  | cons gk gs ih =>
    cases sub with
    | nil => simp at hq
    | cons p rest =>
      simp only [expectedWalk]
      split
      · rcases List.mem_cons.mp hq with rfl | hq
        · exact List.mem_cons_self _ _
        · exact List.mem_cons_of_mem _ (ih rest (sublist_tail_cons hsub) hq)
      · rename_i hc
        have hne : p ≠ gk := fun he => hc (by rw [he]; exact ⟨rfl, rfl⟩)
        exact List.mem_cons_of_mem _ (ih (p :: rest) (sublist_of_head_ne hsub hne) hq)

/-- With every tile supplied the walk reproduces the input unchanged. -/
theorem expectedWalk_full (gs : List Piece) : expectedWalk gs gs = gs := by
  induction gs with
  | nil => simp [expectedWalk]
  | cons gk gs ih => simp [expectedWalk, ih]

/-- With at least one piece and one cell the walk emits something. -/
theorem expectedWalk_ne_nil (gk p : Piece) (gs rest : List Piece) :
    expectedWalk (gk :: gs) (p :: rest) ≠ [] := by
  simp only [expectedWalk]
  split <;> simp

/-- Unfolding `maxSizes` one piece at a time. -/
theorem maxSizes_cons (p : Piece) (l : List Piece) :
    maxSizes (p :: l) = (max p.img.w (maxSizes l).1, max p.img.h (maxSizes l).2) := by
  have hacc : ∀ (l : List Piece) (a b : Nat),
      l.foldl (fun acc q => (max acc.1 q.img.w, max acc.2 q.img.h)) (a, b) =
        (max a (l.foldl (fun acc q => (max acc.1 q.img.w, max acc.2 q.img.h)) (0, 0)).1,
         max b (l.foldl (fun acc q => (max acc.1 q.img.w, max acc.2 q.img.h)) (0, 0)).2) := by
    intro l
    induction l with
    | nil => intro a b; simp
    | cons q l ih =>
      intro a b
      simp only [List.foldl_cons]
      rw [ih (max a q.img.w) (max b q.img.h), ih (max 0 q.img.w) (max 0 q.img.h)]
      simp [Nat.max_assoc]
  unfold maxSizes
  simp only [List.foldl_cons]
  rw [hacc l (max 0 p.img.w) (max 0 p.img.h)]
  simp

/-- `maxSizes` is bounded by any bound on all pieces. -/
theorem maxSizes_le (l : List Piece) (c d : Nat)
    (hall : ∀ p ∈ l, p.img.w ≤ c ∧ p.img.h ≤ d) :
    (maxSizes l).1 ≤ c ∧ (maxSizes l).2 ≤ d := by
  induction l with
  | nil => simp [maxSizes]
  | cons p l ih =>
    rw [maxSizes_cons]
    have hp := hall p (List.mem_cons_self _ _)
    have hl := ih fun q hq => hall q (List.mem_cons_of_mem _ hq)
    exact ⟨by simp [hp.1, hl.1], by simp [hp.2, hl.2]⟩

/-- `maxSizes` dominates every member. -/
theorem le_maxSizes (l : List Piece) (p : Piece) (hp : p ∈ l) :
    p.img.w ≤ (maxSizes l).1 ∧ p.img.h ≤ (maxSizes l).2 := by
  induction l with
  | nil => simp at hp
  | cons q l ih =>
    rw [maxSizes_cons]
    rcases List.mem_cons.mp hp with rfl | hp
    · exact ⟨Nat.le_max_left _ _, Nat.le_max_left _ _⟩
    · have := ih hp
      exact ⟨this.1.trans (Nat.le_max_right _ _), this.2.trans (Nat.le_max_right _ _)⟩

/-- `maxSizes` is invariant under permutation of the input. -/
theorem maxSizes_perm (l l' : List Piece) (h : l.Perm l') : maxSizes l = maxSizes l' := by
  unfold maxSizes
  refine h.foldl_eq' ?_ (0, 0)
  intro x _ y _ z
  dsimp only
  rw [Prod.mk.injEq]
  exact ⟨Nat.max_right_comm _ _ _, Nat.max_right_comm _ _ _⟩

/-- On a full grid cover the maximal piece size is the clipped pitch. -/
theorem maxSizes_grid (W H T : Nat) (hW : 0 < W) (hH : 0 < H) (hT : 0 < T)
    (g : List Piece) (hg : gridCover W H T g) :
    maxSizes g = (min T W, min T H) := by
  have hNpos : 0 < cdiv W T * cdiv H T :=
    Nat.mul_pos (cdiv_pos W T hW hT) (cdiv_pos H T hH hT)
  have hlen : g.length = cdiv W T * cdiv H T := by
    have := congrArg List.length hg.1
    simpa [gridOffsets] using this
  cases g with
  | nil => simp only [List.length_nil] at hlen; omega
  | cons p g' =>
    have hoff := hg.1
    rw [gridOffsets_eq] at hoff
    have hlen' : cdiv W T * cdiv H T = g'.length + 1 := by
      simpa using hlen.symm
    rw [hlen', cellOffsetsFrom_succ, List.map_cons] at hoff
    have hp0 : (p.ox, p.oy) = cellPos (cdiv W T) T 0 := (List.cons_eq_cons.mp hoff).1
    have hpx : p.ox = 0 ∧ p.oy = 0 := by
      have : cellPos (cdiv W T) T 0 = (0, 0) := by simp [cellPos]
      rw [this, Prod.mk.injEq] at hp0
      exact hp0
    have hpsz := hg.2 p (List.mem_cons_self _ _)
    have hpw : p.img.w = min T W := by rw [hpsz.1, hpx.1]; simp
    have hph : p.img.h = min T H := by rw [hpsz.2, hpx.2]; simp
    have hall : ∀ q ∈ p :: g', q.img.w ≤ min T W ∧ q.img.h ≤ min T H := by
      intro q hq
      have := hg.2 q hq
      constructor
      · rw [this.1]; omega
      · rw [this.2]; omega
    have hub := maxSizes_le (p :: g') (min T W) (min T H) hall
    have hlb := le_maxSizes (p :: g') p (List.mem_cons_self _ _)
    rw [hpw] at hlb
    rw [hph] at hlb
    have h1 : (maxSizes (p :: g')).1 = min T W := Nat.le_antisymm hub.1 hlb.1
    have h2 : (maxSizes (p :: g')).2 = min T H := Nat.le_antisymm hub.2 hlb.2
    rw [Prod.ext_iff]
    exact ⟨h1, h2⟩

/-- The trailing filler, started at cell `k` of the grid, emits exactly one
blank per remaining grid cell (sized to the cell) and stops at the canvas
bottom. -/
theorem walkTail_spec (W H T : Nat) (hW : 0 < W) (hH : 0 < H) (hT : 0 < T) :
    ∀ (gs : List Piece) (k fuel : Nat) (a : Bool × Nat),
      k + gs.length = cdiv W T * cdiv H T →
      gs.map (fun p => (p.ox, p.oy)) = cellOffsetsFrom (cdiv W T) T k gs.length →
      (∀ p ∈ gs, p.img.w = min T (W - p.ox) ∧ p.img.h = min T (H - p.oy)) →
      gs.length + 1 ≤ fuel →
      walkTail fuel (cursorAt W H T k).1 (cursorAt W H T k).2 W H
        (min T W) (min T H) (some a) = some (tailBlanks gs a) := by
  intro gs
  induction gs with
  | nil =>
    intro k fuel a hkN hoff hsz hfuel
    have hk : k = cdiv W T * cdiv H T := by simpa using hkN
    subst hk
    have hcur : cursorAt W H T (cdiv W T * cdiv H T) =
        (0, (cdiv H T - 1) * T + min T H) := by
      unfold cursorAt
      rw [if_neg (lt_irrefl _)]
    rw [hcur]
    have hstop := tail_stop W H T hW hH hT
    cases fuel with
    | zero => omega
    | succ fuel =>
      rw [walkTail, if_neg (by omega)]
      rfl
  | cons gk gs ih =>
    intro k fuel a hkN hoff hsz hfuel
    have hk : k < cdiv W T * cdiv H T := by
      simp only [List.length_cons] at hkN
      omega
    have hcur : cursorAt W H T k = (k % cdiv W T * T, k / cdiv W T * T) := by
      unfold cursorAt cellPos
      rw [if_pos hk]
    simp only [List.length_cons] at hoff
    rw [cellOffsetsFrom_succ, List.map_cons] at hoff
    have hoff1 : (gk.ox, gk.oy) = cellPos (cdiv W T) T k := (List.cons_eq_cons.mp hoff).1
    have hoff2 : gs.map (fun p => (p.ox, p.oy)) =
        cellOffsetsFrom (cdiv W T) T (k + 1) gs.length := (List.cons_eq_cons.mp hoff).2
    have hgkx : gk.ox = k % cdiv W T * T ∧ gk.oy = k / cdiv W T * T := by
      have : cellPos (cdiv W T) T k = (k % cdiv W T * T, k / cdiv W T * T) := rfl
      rw [this, Prod.mk.injEq] at hoff1
      exact hoff1
    cases fuel with
    | zero => simp at hfuel
    | succ fuel =>
      rw [hcur, walkTail]
      have hey : k / cdiv W T * T < H := cellY_lt W H T k hW hH hT hk
      rw [if_pos hey]
      dsimp only
      rw [gap_min, gap_min, cursor_advance W H T k hW hH hT hk]
      rw [ih (k + 1) fuel a (by simp only [List.length_cons] at hkN; omega) hoff2
        (fun p hp => hsz p (List.mem_cons_of_mem _ hp))
        (by simp only [List.length_cons] at hfuel; omega)]
      dsimp only
      unfold tailBlanks
      rw [List.map_cons]
      rw [(hsz gk (List.mem_cons_self _ _)).1, (hsz gk (List.mem_cons_self _ _)).2,
        hgkx.1, hgkx.2]

/-- The main reassembly loop, started at cell `k` of the grid with the
pieces at later cells still pending, emits exactly the expected interleaving
of supplied pieces and synthetic blanks and leaves the cursor at the cell
after the last supplied piece. -/
theorem walkMain_spec (W H T : Nat) (hW : 0 < W) (hH : 0 < H) (hT : 0 < T) :
    ∀ (gs : List Piece) (k : Nat) (sub : List Piece) (fuel : Nat),
      k + gs.length = cdiv W T * cdiv H T →
      gs.map (fun p => (p.ox, p.oy)) = cellOffsetsFrom (cdiv W T) T k gs.length →
      (∀ p ∈ gs, p.img.w = min T (W - p.ox) ∧ p.img.h = min T (H - p.oy)) →
      List.Sublist sub gs →
      gs.length + 1 ≤ fuel →
      walkMain fuel sub (cursorAt W H T k).1 (cursorAt W H T k).2 W H
        (min T W) (min T H) =
        some (expectedWalk gs sub,
          cursorAt W H T (k + (expectedWalk gs sub).length)) := by
  intro gs
  induction gs with
  | nil =>
    intro k sub fuel hkN hoff hsz hsub hfuel
    rw [List.sublist_nil.mp hsub]
    cases fuel with
    | zero => simp at hfuel
    | succ fuel =>
      rw [walkMain]
      simp [expectedWalk]
  | cons gk gs ih =>
    intro k sub fuel hkN hoff hsz hsub hfuel
    have hk : k < cdiv W T * cdiv H T := by
      simp only [List.length_cons] at hkN
      omega
    have hcur : cursorAt W H T k = (k % cdiv W T * T, k / cdiv W T * T) := by
      unfold cursorAt cellPos
      rw [if_pos hk]
    simp only [List.length_cons] at hoff
    rw [cellOffsetsFrom_succ, List.map_cons] at hoff
    have hoff1 : (gk.ox, gk.oy) = cellPos (cdiv W T) T k := (List.cons_eq_cons.mp hoff).1
    have hoff2 : gs.map (fun p => (p.ox, p.oy)) =
        cellOffsetsFrom (cdiv W T) T (k + 1) gs.length := (List.cons_eq_cons.mp hoff).2
    have hgkx : gk.ox = k % cdiv W T * T ∧ gk.oy = k / cdiv W T * T := by
      have he : cellPos (cdiv W T) T k = (k % cdiv W T * T, k / cdiv W T * T) := rfl
      rw [he, Prod.mk.injEq] at hoff1
      exact hoff1
    have hlater : ∀ q ∈ gs, (q.ox, q.oy) ≠ (k % cdiv W T * T, k / cdiv W T * T) := by
      intro q hq hqe
      have hm : (q.ox, q.oy) ∈ cellOffsetsFrom (cdiv W T) T (k + 1) gs.length := by
        rw [← hoff2]
        exact List.mem_map_of_mem _ hq
      unfold cellOffsetsFrom at hm
      rcases List.mem_map.mp hm with ⟨i, hi, he⟩
      have hce : cellPos (cdiv W T) T (k + 1 + i) = cellPos (cdiv W T) T k := by
        rw [he, hqe]
        rfl
      have hmd := cellPos_inj (cdiv W T) T (k + 1 + i) k hT hce
      have h1 := Nat.div_add_mod (k + 1 + i) (cdiv W T)
      have h2 := Nat.div_add_mod k (cdiv W T)
      rw [hmd.1, hmd.2] at h1
      omega
    have hkN' : k + 1 + gs.length = cdiv W T * cdiv H T := by
      simp only [List.length_cons] at hkN
      omega
    have hsz' : ∀ p ∈ gs, p.img.w = min T (W - p.ox) ∧ p.img.h = min T (H - p.oy) :=
      fun p hp => hsz p (List.mem_cons_of_mem _ hp)
    cases sub with
    | nil =>
      cases fuel with
      | zero => simp at hfuel
      | succ fuel =>
        rw [walkMain]
        simp [expectedWalk]
    | cons p rest =>
      have hpmem : p ∈ gk :: gs := hsub.subset (List.mem_cons_self _ _)
      cases fuel with
      | zero => simp at hfuel
      | succ fuel =>
        have hfuel' : gs.length + 1 ≤ fuel := by
          simp only [List.length_cons] at hfuel
          omega
        rw [hcur]
        dsimp only
        rw [walkMain]
        by_cases hmatch : p.ox = k % cdiv W T * T ∧ p.oy = k / cdiv W T * T
        · have hpgk : p = gk := by
            rcases List.mem_cons.mp hpmem with h | h
            · exact h
            · exact absurd (by rw [Prod.mk.injEq]; exact hmatch) (hlater p h)
          have hrest : List.Sublist rest gs := by
            cases hsub with
            | cons _ h =>
              exfalso
              have hp : p ∈ gs := h.subset (List.mem_cons_self _ _)
              exact (hlater p hp) (by rw [Prod.mk.injEq]; exact hmatch)
            | cons₂ _ h => exact h
          rw [if_pos hmatch]
          dsimp only
          have hpsz := hsz p hpmem
          rw [hpsz.1, hmatch.1, cursor_advance W H T k hW hH hT hk]
          rw [ih (k + 1) rest fuel hkN' hoff2 hsz' hrest hfuel']
          dsimp only
          have hcnd : p.ox = gk.ox ∧ p.oy = gk.oy := by
            rw [hpgk]
            exact ⟨rfl, rfl⟩
          simp only [expectedWalk]
          rw [if_pos hcnd]
          simp only [List.length_cons]
          have harith : k + ((expectedWalk gs rest).length + 1) =
              k + 1 + (expectedWalk gs rest).length := by omega
          rw [harith]
        · have hpne : p ≠ gk := by
            intro he
            exact hmatch (by rw [he, hgkx.1, hgkx.2]; exact ⟨rfl, rfl⟩)
          have hsub' : List.Sublist (p :: rest) gs := sublist_of_head_ne hsub hpne
          rw [if_neg hmatch]
          dsimp only
          rw [gap_min, gap_min, cursor_advance W H T k hW hH hT hk]
          rw [ih (k + 1) (p :: rest) fuel hkN' hoff2 hsz' hsub' hfuel']
          dsimp only
          have hcnd : ¬ (p.ox = gk.ox ∧ p.oy = gk.oy) := by
            intro hc
            exact hmatch ⟨hc.1.trans hgkx.1, hc.2.trans hgkx.2⟩
          simp only [expectedWalk]
          rw [if_neg hcnd]
          simp only [List.length_cons]
          have hgksz := hsz gk (List.mem_cons_self _ _)
          rw [hgksz.1, hgksz.2, hgkx.1, hgkx.2]
          have harith : k + ((expectedWalk gs (p :: rest)).length + 1) =
              k + 1 + (expectedWalk gs (p :: rest)).length := by omega
          rw [harith]

/-- Dropping leading cells from an offsets window. -/
theorem cellOffsetsFrom_drop (nc T : Nat) :
    ∀ (j k n : Nat), j ≤ n →
      (cellOffsetsFrom nc T k n).drop j = cellOffsetsFrom nc T (k + j) (n - j) := by
  intro j
  induction j with
  | zero => intro k n _; simp
  | succ j ih =>
    intro k n hj
    cases n with
    | zero => omega
    | succ m =>
      rw [cellOffsetsFrom_succ, List.drop_succ_cons, ih (k + 1) m (by omega)]
      have h1 : k + 1 + j = k + (j + 1) := by omega
      have h2 : m - j = m + 1 - (j + 1) := by omega
      rw [h1, h2]

/-- The trailing blanks sit at exactly the remaining cells' offsets. -/
theorem tailBlanks_offsets (gs : List Piece) (a : Bool × Nat) :
    (tailBlanks gs a).map (fun q => (q.ox, q.oy)) = gs.map (fun q => (q.ox, q.oy)) := by
  unfold tailBlanks
  rw [List.map_map]
  rfl

/-- Membership in the trailing blanks. -/
theorem tailBlanks_mem (gs : List Piece) (a : Bool × Nat) (q : Piece)
    (hq : q ∈ tailBlanks gs a) :
    ∃ gk ∈ gs, q = ⟨gk.ox, gk.oy, blankImg gk.img.w gk.img.h a.1 a.2⟩ := by
  unfold tailBlanks at hq
  rcases List.mem_map.mp hq with ⟨gk, hgk, he⟩
  exact ⟨gk, hgk, he.symm⟩

/-- The grid-cover offsets list, re-based at zero. -/
theorem gridCover_offsets_from (W H T : Nat) (g : List Piece) (hg : gridCover W H T g) :
    g.map (fun p => (p.ox, p.oy)) = cellOffsetsFrom (cdiv W T) T 0 g.length := by
  have hlen : g.length = cdiv W T * cdiv H T := by
    have := congrArg List.length hg.1
    simpa [gridOffsets] using this
  rw [hg.1, gridOffsets_eq, hlen]

/-- Cells in row-major index order are in strict row-major offset order. -/
theorem cellPos_lex (nc T i j : Nat) (hT : 0 < T) (hij : i < j) :
    (cellPos nc T i).2 < (cellPos nc T j).2 ∨
      ((cellPos nc T i).2 = (cellPos nc T j).2 ∧
        (cellPos nc T i).1 < (cellPos nc T j).1) := by
  unfold cellPos
  dsimp only
  have hd : i / nc ≤ j / nc := Nat.div_le_div_right (Nat.le_of_lt hij)
  rcases Nat.lt_or_ge (i / nc) (j / nc) with h | h
  · exact Or.inl ((Nat.mul_lt_mul_right hT).mpr h)
  · have hde : i / nc = j / nc := Nat.le_antisymm hd h
    have h1 := Nat.div_add_mod i nc
    have h2 := Nat.div_add_mod j nc
    rw [hde] at h1
    have hm : i % nc < j % nc := by omega
    exact Or.inr ⟨by rw [hde], (Nat.mul_lt_mul_right hT).mpr hm⟩

/-- A full grid cover is strictly sorted by the source's row-major
comparator. -/
theorem gridCover_pairwise (W H T : Nat) (hT : 0 < T) (g : List Piece)
    (hg : gridCover W H T g) : g.Pairwise pieceLt := by
  have h1 : (g.map (fun p => (p.ox, p.oy))).Pairwise
      (fun x y => x.2 < y.2 ∨ (x.2 = y.2 ∧ x.1 < y.1)) := by
    rw [hg.1]
    unfold gridOffsets
    refine List.pairwise_map.mpr ?_
    exact (List.pairwise_lt_range _).imp (fun {i j} h => cellPos_lex (cdiv W T) T i j hT h)
  have h2 := List.pairwise_map.mp h1
  exact h2.imp (fun {a b} h => (pieceLt_iff a b).mpr h)

/-- C3 (amended): tile reassembly coverage and idempotence for a canvas of
size W by H with uniform tile size T clipped at the edges.  (a) Supplying
all row-major tiles, in any order, yields the reassembled sequence identical
to the input merely sorted by the row-major comparator (which reproduces the
grid order).  (b) Supplying a strict subset whose observed maximal tile size
equals the grid's clipped pitch (min T W, min T H) — the amendment: the
source sizes its blanks by the maximum observed over the supplied tiles, not
by T — yields a sequence of total length (ceil(W/T)) * (ceil(H/T)) whose
offsets are exactly the row-major grid offsets, in which every tile has the
cell size clipped at the right/bottom edges, every supplied tile appears,
and every other entry is a synthetic blank at its grid cell. -/
theorem tile_reassembly_coverage (W H T : Nat) (hW : 0 < W) (hH : 0 < H) (hT : 0 < T)
    (g : List Piece) (hg : gridCover W H T g) :
    (∀ (l : List Piece) (fuel : Nat), l.Perm g → g.length + 1 ≤ fuel →
      sortPieces l = g ∧ largeTexConvert fuel l W H = some g) ∧
    (∀ (sub l : List Piece) (fuel : Nat), List.Sublist sub g → sub ≠ g → l.Perm sub →
      maxSizes l = (min T W, min T H) → cdiv W T * cdiv H T + 1 ≤ fuel →
      ∃ out, largeTexConvert fuel l W H = some out ∧
        out.length = cdiv W T * cdiv H T ∧
        out.map (fun q => (q.ox, q.oy)) = gridOffsets W H T ∧
        (∀ q ∈ out, q.img.w = min T (W - q.ox) ∧ q.img.h = min T (H - q.oy)) ∧
        (∀ q ∈ sub, q ∈ out) ∧
        (∀ q ∈ out, q ∈ sub ∨
          ∃ gk ∈ g, ∃ m f, q = ⟨gk.ox, gk.oy, blankImg gk.img.w gk.img.h m f⟩)) := by
  have hlen : g.length = cdiv W T * cdiv H T := by
    have := congrArg List.length hg.1
    simpa [gridOffsets] using this
  have hNpos : 0 < cdiv W T * cdiv H T :=
    Nat.mul_pos (cdiv_pos W T hW hT) (cdiv_pos H T hH hT)
  have hgne : g ≠ [] := by
    intro h
    rw [h] at hlen
    simp only [List.length_nil] at hlen
    omega
  have hpw : g.Pairwise pieceLt := gridCover_pairwise W H T hT g hg
  have hoff0 : g.map (fun p => (p.ox, p.oy)) = cellOffsetsFrom (cdiv W T) T 0 g.length :=
    gridCover_offsets_from W H T g hg
  constructor
  · -- (a) full cover
    intro l fuel hperm hfuel
    have hsort : sortPieces l = g := sortPieces_eq_of_perm l g hperm hpw
    refine ⟨hsort, ?_⟩
    have hmx : maxSizes l = (min T W, min T H) :=
      (maxSizes_perm l g hperm).trans (maxSizes_grid W H T hW hH hT g hg)
    have hspec := walkMain_spec W H T hW hH hT g 0 g fuel (by omega) hoff0 hg.2
      (List.Sublist.refl g) (by omega)
    rw [cursorAt_zero W H T hW hH hT] at hspec
    rw [expectedWalk_full] at hspec
    obtain ⟨p0, g', hgeq⟩ := List.exists_cons_of_ne_nil hgne
    unfold largeTexConvert
    rw [hmx, hsort]
    dsimp only
    rw [hspec]
    dsimp only
    have harith : 0 + g.length = g.length := by omega
    rw [harith]
    have htail := walkTail_spec W H T hW hH hT [] (cdiv W T * cdiv H T) fuel
      (p0.img.mip, p0.img.fmt) (by simp) (by simp [cellOffsetsFrom]) (by simp)
      (by simp only [List.length_nil]; omega)
    rw [hlen]
    conv_lhs => rw [hgeq]
    simp only [List.head?]
    dsimp only [Option.map]
    rw [← hgeq, htail]
    simp [tailBlanks]
  · -- (b) strict subset with grid-maximal observed tile size
    intro sub l fuel hsub hne hperm hmx hfuel
    have hpws : sub.Pairwise pieceLt := hpw.sublist hsub
    have hsort : sortPieces l = sub := sortPieces_eq_of_perm l sub hperm hpws
    have hminpos : 0 < min T W ∧ 0 < min T H := by omega
    have hsubne : sub ≠ [] := by
      intro h
      rw [h] at hperm
      have hl : l = [] := hperm.eq_nil
      rw [hl] at hmx
      have : maxSizes ([] : List Piece) = (0, 0) := rfl
      rw [this, Prod.mk.injEq] at hmx
      omega
    obtain ⟨p0, sub', hsubeq⟩ := List.exists_cons_of_ne_nil hsubne
    obtain ⟨g0, g'', hgeq⟩ := List.exists_cons_of_ne_nil hgne
    have hspec := walkMain_spec W H T hW hH hT g 0 sub fuel (by omega) hoff0 hg.2
      hsub (by omega)
    rw [cursorAt_zero W H T hW hH hT] at hspec
    have hewne : expectedWalk g sub ≠ [] := by
      rw [hgeq, hsubeq]
      exact expectedWalk_ne_nil g0 p0 g'' sub'
    obtain ⟨e0, ew', hew⟩ := List.exists_cons_of_ne_nil hewne
    have hewlen : (expectedWalk g sub).length ≤ cdiv W T * cdiv H T := by
      have := expectedWalk_length_le g sub
      omega
    -- the tail walk over the remaining cells
    have hdoff : (g.drop (expectedWalk g sub).length).map (fun p => (p.ox, p.oy)) =
        cellOffsetsFrom (cdiv W T) T ((expectedWalk g sub).length)
          (g.drop (expectedWalk g sub).length).length := by
      rw [List.map_drop, hoff0,
        cellOffsetsFrom_drop (cdiv W T) T (expectedWalk g sub).length 0 g.length
          (by omega), List.length_drop]
      have h0 : 0 + (expectedWalk g sub).length = (expectedWalk g sub).length := by omega
      rw [h0]
    have htail := walkTail_spec W H T hW hH hT (g.drop (expectedWalk g sub).length)
      ((expectedWalk g sub).length) fuel (e0.img.mip, e0.img.fmt)
      (by rw [List.length_drop]; omega) hdoff
      (fun p hp => hg.2 p (List.mem_of_mem_drop hp))
      (by rw [List.length_drop]; omega)
    refine ⟨expectedWalk g sub ++
      tailBlanks (g.drop (expectedWalk g sub).length) (e0.img.mip, e0.img.fmt), ?_, ?_, ?_, ?_, ?_, ?_⟩
    · -- the conversion computes exactly this output
      unfold largeTexConvert
      rw [hmx, hsort]
      dsimp only
      rw [hspec]
      dsimp only
      have h0 : 0 + (expectedWalk g sub).length = (expectedWalk g sub).length := by omega
      rw [h0]
      conv_lhs => rw [hew]
      simp only [List.head?]
      dsimp only [Option.map]
      rw [← hew, htail]
    · -- total length
      rw [List.length_append]
      unfold tailBlanks
      rw [List.length_map, List.length_drop]
      omega
    · -- offsets are the grid offsets
      rw [List.map_append, tailBlanks_offsets, expectedWalk_offsets,
        ← List.map_append, List.take_append_drop, hg.1]
    · -- every tile has its cell's clipped size
      intro q hq
      rcases List.mem_append.mp hq with hq | hq
      · rcases expectedWalk_mem g sub q hq with hmem | ⟨gk, hgk, m, f, he⟩
        · exact hg.2 q (hsub.subset hmem)
        · have := hg.2 gk hgk
          rw [he]
          exact this
      · rcases tailBlanks_mem _ _ q hq with ⟨gk, hgk, he⟩
        have := hg.2 gk (List.mem_of_mem_drop hgk)
        rw [he]
        exact this
    · -- every supplied tile appears
      intro q hq
      exact List.mem_append_left _ (expectedWalk_subset g sub hsub q hq)
    · -- everything else is a synthetic blank at some grid cell
      intro q hq
      rcases List.mem_append.mp hq with hq | hq
      · rcases expectedWalk_mem g sub q hq with hmem | ⟨gk, hgk, m, f, he⟩
        · exact Or.inl hmem
        · exact Or.inr ⟨gk, hgk, m, f, he⟩
      · rcases tailBlanks_mem _ _ q hq with ⟨gk, hgk, he⟩
        exact Or.inr ⟨gk, List.mem_of_mem_drop hgk, e0.img.mip, e0.img.fmt, he⟩

/-- Counterexample for C3 as stated: canvas 6 by 4, tile size 4, strict
subset consisting of the single clipped tile at grid cell (4,0) of size
2 by 4.  The claim predicts a reassembled sequence of total length
ceil(6/4) * ceil(4/4) = 2; the source sizes its synthetic blanks by the
maximum size observed over the supplied tiles (2 by 4), not by the tile
pitch 4, so the gap loop takes two 2-wide steps across the first cell and
the output has length 3. -/
theorem tile_reassembly_subset_cex :
    (largeTexConvert 16 [⟨4, 0, ⟨2, 4, false, 0, List.replicate 8 9⟩⟩] 6 4).map List.length
        = some 3 ∧
    cdiv 6 4 * cdiv 4 4 = 2 :=
  ⟨rfl, rfl⟩

/-- Grid tile at cell (0,0) of the 2 by 1 canvas used to witness the
amended C3 theorem. -/
def wpA : Piece := ⟨0, 0, ⟨1, 1, false, 0, [7]⟩⟩

/-- Grid tile at cell (1,0) of the 2 by 1 canvas used to witness the
amended C3 theorem. -/
def wpB : Piece := ⟨1, 0, ⟨1, 1, false, 0, [9]⟩⟩

/-- Witness for the amended C3 theorem on the concrete 2 by 1 canvas with
tile size 1: part (a) at the reversed full cover, part (b) at the strict
subset holding only the first cell. -/
theorem tile_reassembly_coverage_witness :
    (sortPieces [wpB, wpA] = [wpA, wpB] ∧
      largeTexConvert 3 [wpB, wpA] 2 1 = some [wpA, wpB]) ∧
    (∃ out, largeTexConvert 3 [wpA] 2 1 = some out ∧
      out.length = cdiv 2 1 * cdiv 1 1 ∧
      out.map (fun q => (q.ox, q.oy)) = gridOffsets 2 1 1 ∧
      (∀ q ∈ out, q.img.w = min 1 (2 - q.ox) ∧ q.img.h = min 1 (1 - q.oy)) ∧
      (∀ q ∈ [wpA], q ∈ out) ∧
      (∀ q ∈ out, q ∈ [wpA] ∨
        ∃ gk ∈ [wpA, wpB], ∃ m f, q = ⟨gk.ox, gk.oy, blankImg gk.img.w gk.img.h m f⟩)) :=
  ⟨(tile_reassembly_coverage 2 1 1 (by decide) (by decide) (by decide) [wpA, wpB]
      (by constructor
          · rfl
          · decide)).1 [wpB, wpA] 3 (by decide) (by decide),
   (tile_reassembly_coverage 2 1 1 (by decide) (by decide) (by decide) [wpA, wpB]
      (by constructor
          · rfl
          · decide)).2 [wpA] [wpA] 3
      (List.Sublist.cons₂ wpA (List.nil_sublist [wpB])) (by decide) (List.Perm.refl _)
      (by decide) (by decide)⟩

/-- The out-of-canvas tile used for C4: offset (5,0) on a 2 by 2 canvas. -/
def oobTile : Piece := ⟨5, 0, ⟨1, 1, false, 0, [3]⟩⟩

/-- With a sole pending tile whose horizontal offset 5 can never equal an
in-canvas cursor column on a width-2 canvas, the main gap-filling loop of
`convert` never reaches the tile and exhausts any amount of fuel: the
source loop never terminates. -/
theorem walkMain_oob_none : ∀ (fuel ex ey : Nat), ex < 2 →
    walkMain fuel [oobTile] ex ey 2 2 1 1 = none := by
  intro fuel
  induction fuel with
  | zero => intro ex ey hex; rfl
  | succ fuel ih =>
    intro ex ey hex
    rw [walkMain]
    have hc : ¬(oobTile.ox = ex ∧ oobTile.oy = ey) := by
      intro h
      have h1 : (5 : Nat) = ex := h.1
      omega
    rw [if_neg hc]
    dsimp only
    have hgw : min 1 (2 - ex) = 1 := by omega
    rw [hgw]
    by_cases hw : ex + 1 ≥ 2
    · rw [stepWrap, if_pos hw]
      dsimp only
      rw [ih 0 (ey + 1) (by omega)]
    · rw [stepWrap, if_neg hw]
      dsimp only
      rw [ih (ex + 1) ey (by omega)]

/-- Counterexample for C4 as stated: the tile set {A at (0,0) sized 2 by 1,
Z at (2,0) sized 0 by 0} on a 3 by 1 canvas contains a zero-size tile, yet
`convert` does not fail with a Corrupt error: it succeeds, passing the
zero-size tile straight through into the reassembled sequence (followed by
a synthetic 1 by 1 blank filling the rest of the cell). -/
theorem malformed_tile_no_corrupt_cex :
    largeTexConvert 8 [⟨2, 0, ⟨0, 0, false, 0, []⟩⟩, ⟨0, 0, ⟨2, 1, false, 0, [1, 1]⟩⟩] 3 1 =
      some [⟨0, 0, ⟨2, 1, false, 0, [1, 1]⟩⟩, ⟨2, 0, ⟨0, 0, false, 0, []⟩⟩,
        ⟨2, 0, blankImg 1 1 false 0⟩] :=
  rfl

/-- C4 (corrected): `convert` performs no validation of tile geometry and
never signals Corrupt for malformed tiles.  A zero-size tile is accepted and
passed through into a successfully reassembled sequence; a tile whose offset
lies outside the canvas makes the gap-filling loop run forever (modelled by
fuel: every fuel bound yields no result), rather than aborting with an
error. -/
theorem malformed_tile_behavior :
    largeTexConvert 8 [⟨2, 0, ⟨0, 0, false, 0, []⟩⟩, ⟨0, 0, ⟨2, 1, false, 0, [1, 1]⟩⟩] 3 1 =
      some [⟨0, 0, ⟨2, 1, false, 0, [1, 1]⟩⟩, ⟨2, 0, ⟨0, 0, false, 0, []⟩⟩,
        ⟨2, 0, blankImg 1 1 false 0⟩] ∧
    ∀ fuel, largeTexConvert fuel [oobTile] 2 2 = none := by
  constructor
  · rfl
  · intro fuel
    have hs : sortPieces [oobTile] = [oobTile] := rfl
    have hm : maxSizes [oobTile] = (1, 1) := rfl
    unfold largeTexConvert
    dsimp only
    rw [hs, hm]
    dsimp only
    rw [walkMain_oob_none fuel 0 0 (by omega)]
